import Mathlib

/-!
Verification development for the hierarchical Subnet Coordinator Actor (SCA)
of the `builtin-actors` repository.

The Rust sources are embedded shallowly: pure functions become Lean
functions, the actor methods become explicit state transformers over an
`Env` record describing the host message context, and fallible code returns
`Except`.  Persistent HAMT/AMT collections are modelled as association
lists; content identifiers (`Cid`) are modelled as natural numbers produced
by structural encodings.  Functions of this repository whose source file is
not part of the crate sources here (notably the actor's `state.rs` and
`checkpoint.rs`, and the `SubnetID` path algebra living in the `fvm_shared`
fork) are modelled from the specification; each such definition carries a
doc comment starting with `Modelled from the spec:`.
-/

set_option linter.unusedVariables false

deriving instance DecidableEq for Except

namespace SCA

/-- Association-list lookup (model of keyed HAMT/AMT access). -/
def lookupA [DecidableEq α] : List (α × β) → α → Option β
  | [], _ => none
  | (k, v) :: rest, key => if k = key then some v else lookupA rest key

/-- Association-list update: replaces the binding if present, appends otherwise. -/
def setA [DecidableEq α] : List (α × β) → α → β → List (α × β)
  | [], key, v => [(key, v)]
  | (k, w) :: rest, key, v =>
    if k = key then (key, v) :: rest else (k, w) :: setA rest key v

/-- Association-list removal of the binding for a key. -/
def eraseA [DecidableEq α] : List (α × β) → α → List (α × β)
  | [], _ => []
  | (k, w) :: rest, key => if k = key then eraseA rest key else (k, w) :: eraseA rest key

theorem lookupA_setA_self [DecidableEq α] (l : List (α × β)) (k : α) (v : β) :
    lookupA (setA l k v) k = some v := by
  induction l with
  | nil => simp [setA, lookupA]
  | cons hd tl ih =>
    by_cases h : hd.1 = k
    · simp [setA, h, lookupA]
    · simp [setA, h, lookupA, ih]

theorem lookupA_setA_other [DecidableEq α] (l : List (α × β)) (k k' : α) (v : β)
    (h : k ≠ k') : lookupA (setA l k v) k' = lookupA l k' := by
  induction l with
  | nil => simp [setA, lookupA, h]
  | cons hd tl ih =>
    by_cases h1 : hd.1 = k
    · simp [setA, h1, lookupA, h]
    · simp [setA, h1, lookupA, ih]

/-! ## SubnetID and hierarchical addresses -/

/-- Modelled from the spec: a `SubnetID` is an ordered path of subnet-actor
addresses rooted at a distinguished root.  We represent it by the list of
its path components (the head being the root component), each component an
abstract actor address rendered as a natural number: `/root/f01` becomes
`⟨[0, 1]⟩` when `root ↦ 0, f01 ↦ 1`. -/
structure SubnetID where
  path : List Nat
deriving DecidableEq, Repr

/-- `SubnetID::new(parent, actor)` appends the subnet actor to the parent path. -/
def SubnetID.new (parent : SubnetID) (actor : Nat) : SubnetID := ⟨parent.path ++ [actor]⟩

/-- Modelled from the spec: the parent of a subnet path; the rootnet has no parent. -/
def SubnetID.parent (s : SubnetID) : Option SubnetID :=
  match s.path with
  | [] => none
  | [_] => none
  | _ => some ⟨s.path.dropLast⟩

/-- Longest shared prefix of two component lists. -/
def commonRoot : List Nat → List Nat → List Nat
  | x :: xs, y :: ys => if x = y then x :: commonRoot xs ys else []
  | _, _ => []

/-- Modelled from the spec: the number of filesystem components of the rendered
path string `/c0/…/ck` minus one, which equals the length of the component
list (`Path::new(s).components()` counts one extra root-directory component). -/
def SubnetID.pathDepth (s : SubnetID) : Nat := s.path.length

/-- Modelled from the spec: `SubnetID::common_parent` returns the deepest
shared prefix of the two subnet paths together with its depth index, `none`
when the paths share no component.  The index equals the number of
filesystem components of the prefix string minus one, i.e. the length of
the shared component list; this convention is pinned by the `is_bottomup`
unit tests in `src/primitives/types.rs`. -/
def SubnetID.common_parent (a b : SubnetID) : Option (Nat × SubnetID) :=
  let p := commonRoot a.path b.path
  if p.isEmpty then none else some (p.length, ⟨p⟩)

/-- The subnet actor of a subnet id: the last component of the path. -/
def SubnetID.subnet_actor (s : SubnetID) : Nat := s.path.getLastD 0

/-- Modelled from the spec: the next hop from network `net` downward toward
the deeper subnet `s`, i.e. the child of `net` lying on the path to `s`;
`none` when `s` is not strictly below `net`. -/
def SubnetID.down (s : SubnetID) (net : SubnetID) : Option SubnetID :=
  if net.path.length < s.path.length ∧ commonRoot s.path net.path = net.path
  then some ⟨s.path.take (net.path.length + 1)⟩
  else none

/-- An address is either a raw address (all non-hierarchical payload kinds
collapsed into an abstract identifier) or a hierarchical address pairing a
subnet with a raw address.  Hierarchical-wrapping-hierarchical is excluded
structurally, matching the `new_hierarchical` constructor check. -/
inductive Address
  | raw (a : Nat)
  | hier (sub : SubnetID) (a : Nat)
deriving DecidableEq, Repr

/-- `Address::subnet()`: the subnet of a hierarchical address. -/
def Address.subnet : Address → Except String SubnetID
  | .hier s _ => .ok s
  | .raw _ => .error "address is not hierarchical"

/-- `Address::raw_addr()`: the wrapped raw address of a hierarchical address. -/
def Address.raw_addr : Address → Except String Nat
  | .hier _ a => .ok a
  | .raw _ => .error "address is not hierarchical"

/-- Reserved singleton: the burnt-funds actor (`BURNT_FUNDS_ACTOR_ADDR`). -/
def BURNT_FUNDS_ACTOR_ID : Nat := 99
/-- Reserved singleton: the reward actor (`REWARD_ACTOR_ADDR`). -/
def REWARD_ACTOR_ID : Nat := 2
/-- Reserved singleton: the SCA actor itself (`SCA_ACTOR_ADDR`). -/
def SCA_ACTOR_ID : Nat := 64
/-- Reserved singleton: the system actor (`SYSTEM_ACTOR_ADDR`). -/
def SYSTEM_ACTOR_ID : Nat := 0

/-- `METHOD_SEND`: the plain value-transfer method number. -/
def METHOD_SEND : Nat := 0

/-! ## Cross-messages and their classification (src/primitives/src/types.rs) -/

inductive HCMsgType
  | Unknown
  | BottomUp
  | TopDown
deriving DecidableEq, Repr

/-- Content identifiers are modelled as natural numbers produced by
structural encodings of the hashed payload. -/
abbrev Cid := Nat

/-- `SubmitExecParams` (exec.rs): parameters of a `SubmitAtomicExec` cross
call; the output is the `SerializedState` byte string. -/
structure SubmitExecParams where
  cid : Cid
  abort : Bool
  output : List Nat
deriving DecidableEq, Repr

/-- Model of `RawBytes` message payloads: either plain bytes or the CBOR
serialization of a `SubmitExecParams` (the only parameter type the SCA
itself deserializes out of a cross-message). -/
inductive RawParams
  | empty
  | bytes (bs : List Nat)
  | submitExec (p : SubmitExecParams)
deriving DecidableEq, Repr

/-- `StorableMsg` from `src/primitives/src/types.rs` (the Rust field names
`from`/`to` are Lean keywords and are rendered `mfrom`/`mto`). -/
structure StorableMsg where
  mfrom : Address
  mto : Address
  method : Nat
  params : RawParams
  value : Int
  nonce : Nat
deriving DecidableEq, Repr

/-- `is_bottomup` from `src/primitives/src/types.rs`: a message is bottom-up
iff the source subnet lies strictly below the common parent of source and
destination ( `Path::new(from).components().count() - 1 > index` ). -/
def is_bottomup (sfrom sto : SubnetID) : Bool :=
  match sfrom.common_parent sto with
  | some (ind, _) => decide (sfrom.pathDepth > ind)
  | none => false

/-- `StorableMsg::hc_type` from `src/primitives/src/types.rs`. -/
def StorableMsg.hc_type (m : StorableMsg) : Except String HCMsgType :=
  match m.mto.subnet with
  | .error e => .error e
  | .ok sto =>
    match m.mfrom.subnet with
    | .error e => .error e
    | .ok sfrom => if is_bottomup sfrom sto then .ok .BottomUp else .ok .TopDown

/-- `StorableMsg::apply_type` from `src/primitives/src/types.rs`: the
effective direction relative to the current subnet (the `&&` in the Rust
source short-circuits, so `hc_type` is only consulted when the common
parents agree). -/
def StorableMsg.apply_type (m : StorableMsg) (curr : SubnetID) : Except String HCMsgType :=
  match m.mto.subnet with
  | .error e => .error e
  | .ok sto =>
    match m.mfrom.subnet with
    | .error e => .error e
    | .ok sfrom =>
      if curr.common_parent sto = sfrom.common_parent sto then
        match m.hc_type with
        | .error e => .error e
        | .ok t => if t = .BottomUp then .ok .BottomUp else .ok .TopDown
      else .ok .TopDown

/-- `StorableMsg::new_release_msg` from `src/primitives/src/types.rs`. -/
def StorableMsg.new_release_msg (sub_id : SubnetID) (sig_addr : Nat) (value : Int)
    (nonce : Nat) : Except String StorableMsg :=
  match sub_id.parent with
  | none => .error "error getting parent for subnet addr"
  | some p =>
    .ok { mfrom := .hier sub_id BURNT_FUNDS_ACTOR_ID, mto := .hier p sig_addr,
          method := METHOD_SEND, params := .empty, value := value, nonce := nonce }

/-- `StorableMsg::new_fund_msg` from `src/primitives/src/types.rs`. -/
def StorableMsg.new_fund_msg (sub_id : SubnetID) (sig_addr : Nat) (value : Int) :
    Except String StorableMsg :=
  match sub_id.parent with
  | none => .error "error getting parent for subnet addr"
  | some p =>
    .ok { mfrom := .hier p sig_addr, mto := .hier sub_id sig_addr,
          method := METHOD_SEND, params := .empty, value := value, nonce := 0 }

/-- Sanity: the `is_bottomup` unit-test vectors of `src/primitives/types.rs`
hold in the model ( `/root ↦ [0]`, `f01 ↦ 1`, `f02 ↦ 2`, `f03 ↦ 3` ). -/
theorem is_bottomup_test_vectors :
    is_bottomup ⟨[0, 1]⟩ ⟨[0, 1, 2]⟩ = false ∧
    is_bottomup ⟨[0, 1]⟩ ⟨[0]⟩ = true ∧
    is_bottomup ⟨[0, 1]⟩ ⟨[0, 2, 2]⟩ = true ∧
    is_bottomup ⟨[0, 1, 2]⟩ ⟨[0, 1, 2]⟩ = false ∧
    is_bottomup ⟨[0, 1, 2]⟩ ⟨[0, 1, 2, 3]⟩ = false := by
  decide

/-! ## Structural encodings standing in for CBOR/Blake2b content hashing

The store hashes CBOR payloads into Cids; the model replaces the hash by an
injective structural encoding into `Nat` built from `Nat.pair`. -/

/-- Injective encoding of a list of naturals. -/
def encodeList : List Nat → Nat
  | [] => 0
  | x :: xs => Nat.pair x (encodeList xs) + 1

/-- Injective encoding of an integer. -/
def encodeInt : Int → Nat
  | .ofNat n => 2 * n
  | .negSucc n => 2 * n + 1

/-- Encoding of an address. -/
def Address.encode : Address → Nat
  | .raw a => Nat.pair 0 a
  | .hier s a => Nat.pair 1 (Nat.pair (encodeList s.path) a)

/-- Encoding of a submit-execution parameter record. -/
def SubmitExecParams.encode (p : SubmitExecParams) : Nat :=
  Nat.pair p.cid (Nat.pair (cond p.abort 1 0) (encodeList p.output))

/-- Encoding of a message payload. -/
def RawParams.encode : RawParams → Nat
  | .empty => 0
  | .bytes bs => Nat.pair 0 (encodeList bs) + 1
  | .submitExec p => Nat.pair 1 p.encode + 1

/-- Encoding of a storable message. -/
def StorableMsg.encode (m : StorableMsg) : Nat :=
  Nat.pair m.mfrom.encode (Nat.pair m.mto.encode (Nat.pair m.method
    (Nat.pair m.params.encode (Nat.pair (encodeInt m.value) m.nonce))))

/-! ## Checkpoints (modelled from the spec; the actor's `checkpoint.rs` is
not among the crate sources here) -/

/-- Modelled from the spec: `CrossMsgMeta` aggregates the cross-messages
between a pair of subnets; `msgs_cid` points at the underlying message
batch (the Rust field names `from`/`to` are rendered `mfrom`/`mto`). -/
structure CrossMsgMeta where
  mfrom : SubnetID
  mto : SubnetID
  msgs_cid : Cid
  nonce : Nat
  value : Int
deriving DecidableEq, Repr

/-- Modelled from the spec: the set-like list of child-checkpoint Cids from
one source subnet recorded inside a window checkpoint. -/
structure ChildCheck where
  source : SubnetID
  checks : List Cid
deriving DecidableEq, Repr

/-- Modelled from the spec: the signed payload of a checkpoint; `prev_check`
is the Cid of the previous checkpoint of the same chain. -/
structure CheckData where
  source : SubnetID
  epoch : Int
  prev_check : Cid
  children : List ChildCheck
  cross_msgs : List CrossMsgMeta
deriving DecidableEq, Repr

/-- Modelled from the spec: a checkpoint is its data payload (the signature
carried by the Rust struct plays no role in the SCA's logic). -/
structure Checkpoint where
  data : CheckData
deriving DecidableEq, Repr

/-- Encoding of a cross-message meta. -/
def CrossMsgMeta.encode (m : CrossMsgMeta) : Nat :=
  Nat.pair (encodeList m.mfrom.path) (Nat.pair (encodeList m.mto.path)
    (Nat.pair m.msgs_cid (Nat.pair m.nonce (encodeInt m.value))))

/-- Encoding of a child-check entry. -/
def ChildCheck.encode (c : ChildCheck) : Nat :=
  Nat.pair (encodeList c.source.path) (encodeList c.checks)

/-- Modelled from the spec: `Checkpoint::cid()` hashes the CBOR payload of
the checkpoint data; the model uses the structural encoding (offset by one
so that no computed checkpoint Cid collides with the genesis Cid `0`). -/
def Checkpoint.cid (c : Checkpoint) : Cid :=
  Nat.pair (encodeList c.data.source.path) (Nat.pair (encodeInt c.data.epoch)
    (Nat.pair c.data.prev_check
      (Nat.pair (encodeList (c.data.children.map ChildCheck.encode))
        (encodeList (c.data.cross_msgs.map CrossMsgMeta.encode))))) + 1

/-- Modelled from the spec: `Checkpoint::new(source, epoch)` builds an empty
checkpoint whose `prev_check` is the genesis Cid. -/
def Checkpoint.new (source : SubnetID) (epoch : Int) : Checkpoint :=
  { data := { source := source, epoch := epoch, prev_check := 0,
              children := [], cross_msgs := [] } }

/-! ## CrossMsgs batches (src/actors/hierarchical_sca/src/cross.rs) -/

/-- `CrossMsgs` from `cross.rs`: the raw batch of messages and metas behind
a `msgs_cid`. -/
structure CrossMsgs where
  msgs : List StorableMsg
  metas : List CrossMsgMeta
deriving DecidableEq, Repr

/-- `CrossMsgs::add_metas` from `cross.rs`: pushes each meta of the batch
unless an equal meta is already present (the Rust loop checks membership
against the growing vector). -/
def CrossMsgs.add_metas (cm : CrossMsgs) : List CrossMsgMeta → CrossMsgs
  | [] => cm
  | m :: rest =>
    if m ∈ cm.metas then cm.add_metas rest
    else (CrossMsgs.mk cm.msgs (cm.metas ++ [m])).add_metas rest

/-- `CrossMsgs::add_msg` from `cross.rs`: pushes the message unconditionally
(the source carries a TODO about not checking for duplicates). -/
def CrossMsgs.add_msg (cm : CrossMsgs) (msg : StorableMsg) : CrossMsgs :=
  { cm with msgs := cm.msgs ++ [msg] }

/-! ## Typed content handles (src/actors/hierarchical_sca/src/tcid.rs)

The block store is modelled as an association list from Cids to values and
the content hash as an explicit function `h`; `TCid` is the typed handle
holding exactly a Cid. -/

/-- The block store holding values of shape `V`. -/
abbrev Store (V : Type) := List (Nat × V)

/-- `TCid`: a typed content handle holding exactly a Cid. -/
structure TCid where
  cid : Nat
deriving DecidableEq, Repr

/-- `TCid::get` / `load`: read the value behind the handle or fail when the
store has no block for the Cid. -/
def TCid.get (t : TCid) (store : Store V) : Except String V :=
  match lookupA store t.cid with
  | some v => .ok v
  | none => .error "Cid did not match any in database"

/-- `TCid::put` / `flush`: write the value into the store under its content
hash and overwrite the handle's Cid.  The handle is mutated in the Rust
source, so the model returns the updated handle and store. -/
def TCid.put (h : V → Nat) (t : TCid) (store : Store V) (v : V) : TCid × Store V :=
  ({ cid := h v }, setA store (h v) v)

/-- `TCid::modify` from `tcid.rs` (the same `load → f → flush` pattern is
instantiated for the CBOR, HAMT and AMT shapes): get the value, apply `f`,
put back the modified value and return `f`'s result.  On any error the
handle and the store are left untouched, mirroring the early `?` returns
before `self.put` runs. -/
def TCid.modify (h : V → Nat) (t : TCid) (store : Store V)
    (f : V → Except String (V × R)) : TCid × Store V × Except String R :=
  match t.get store with
  | .error e => (t, store, .error e)
  | .ok v =>
    match f v with
    | .error e => (t, store, .error e)
    | .ok (v2, r) =>
      let (t2, s2) := t.put h store v2
      (t2, s2, .ok r)

/-! ## Exit codes and error propagation -/

/-- The user exit codes the SCA raises (ordered list from the spec). -/
inductive ExitCode
  | USR_ILLEGAL_ARGUMENT
  | USR_ILLEGAL_STATE
  | USR_FORBIDDEN
  | USR_SERIALIZATION
deriving DecidableEq, Repr

/-- An internal failure: either an `ActorError` already carrying an exit
code, or an `anyhow` error with only a message. -/
inductive Fault
  | coded (c : ExitCode)
  | anyhow (s : String)
deriving DecidableEq, Repr

/-- `ActorDowncast::downcast_default`: keep an existing exit code, otherwise
use the default supplied at the call site. -/
def Fault.downcast : Fault → ExitCode → ExitCode
  | .coded c, _ => c
  | .anyhow _, d => d

/-! ## Subnets and the SCA state -/

/-- `Status` from `src/actors/hierarchical_sca/src/subnet.rs`. -/
inductive Status
  | Active
  | Inactive
  | Killed
deriving DecidableEq, Repr

/-- `Subnet` from `src/actors/hierarchical_sca/src/subnet.rs`; the
`top_down_msgs` AMT is inlined as the association list from nonce keys to
messages, and `prev_checkpoint` is the `Option` the actor code in `lib.rs`
matches on. -/
structure Subnet where
  id : SubnetID
  stake : Int
  top_down_msgs : List (Nat × StorableMsg)
  nonce : Nat
  circ_supply : Int
  status : Status
  prev_checkpoint : Option Checkpoint
deriving DecidableEq, Repr

/-- `LockedStateInfo` from `src/primitives/src/atomic/params.rs`. -/
structure LockedStateInfo where
  cid : Cid
  actor : Nat
deriving DecidableEq, Repr

/-- `ExecStatus` from `src/primitives/src/atomic/params.rs`. -/
inductive ExecStatus
  | Initialized
  | Success
  | Aborted
deriving DecidableEq, Repr

/-- A hierarchical id-address key (`TAddressKey<Hierarchical<ID>>`):
the pair of a subnet and the wrapped raw id address. -/
abbrev HierarchicalId := SubnetID × Nat

/-- `AtomicExecParamsRaw` from `src/primitives/src/atomic/params.rs`: inputs
keyed by hierarchical addresses whose raw part is not yet resolved to an id. -/
structure AtomicExecParamsRaw where
  msgs : List StorableMsg
  inputs : List (HierarchicalId × LockedStateInfo)
deriving DecidableEq, Repr

/-- `AtomicExecParams` from `src/primitives/src/atomic/params.rs`: the same
data with inputs keyed by resolved hierarchical id addresses. -/
structure AtomicExecParams where
  msgs : List StorableMsg
  inputs : List (HierarchicalId × LockedStateInfo)
deriving DecidableEq, Repr

/-- `AtomicExec` from `src/primitives/src/atomic/params.rs`; submissions are
keyed by the submitter's raw id address. -/
structure AtomicExec where
  params : AtomicExecParams
  submitted : List (Nat × Cid)
  status : ExecStatus
deriving DecidableEq, Repr

/-- `AtomicExec::new`. -/
def AtomicExec.new (params : AtomicExecParams) : AtomicExec :=
  { params := params, submitted := [], status := .Initialized }

/-- `is_common_parent` from `src/primitives/src/atomic/params.rs`: the left
fold of `common_parent` over the subnets of the input keys, starting from
the first key's subnet and keeping the accumulator on a `None` step, must
equal the current network. -/
def is_common_parent (curr : SubnetID) (inputs : List (HierarchicalId × LockedStateInfo)) :
    Except String Bool :=
  match inputs with
  | [] => .error "wrong length! no inputs in hashmap"
  | k0 :: _ =>
    let cp := inputs.foldl
      (fun cp kv =>
        match cp.common_parent kv.1.1 with
        | some (_, s) => s
        | none => cp)
      k0.1.1
    .ok (cp = curr)

/-- `is_addr_in_exec` from `src/primitives/src/atomic/params.rs`: membership
of the caller among the raw parts of the input keys. -/
def is_addr_in_exec (caller : Nat) (inputs : List (HierarchicalId × LockedStateInfo)) : Bool :=
  inputs.any (fun kv => decide (kv.1.2 = caller))

/-- `AtomicExecParamsRaw::cid` from `src/primitives/src/atomic/params.rs`:
the content hash of the canonical form of the parameters, modelled by the
structural encoding. -/
def AtomicExecParamsRaw.cid (p : AtomicExecParamsRaw) : Cid :=
  Nat.pair (encodeList (p.msgs.map StorableMsg.encode))
    (encodeList (p.inputs.map (fun kv =>
      Nat.pair (encodeList kv.1.1.path) (Nat.pair kv.1.2 (Nat.pair kv.2.cid kv.2.actor)))))

/-- Helper loop of `input_into_ids`, resolving each input key's raw address
and re-keying the map (a later binding for an equal resolved key replaces
an earlier one, as in the Rust `HashMap` insert). -/
def inputIntoIdsGo (resolve : Nat → Option Nat) :
    List (HierarchicalId × LockedStateInfo) → List (HierarchicalId × LockedStateInfo) →
    Except String (List (HierarchicalId × LockedStateInfo))
  | [], acc => .ok acc
  | (k, v) :: rest, acc =>
    match resolve k.2 with
    | none => .error "couldn't resolve id address in exec input"
    | some idA => inputIntoIdsGo resolve rest (setA acc (k.1, idA) v)

/-- `AtomicExecParamsRaw::input_into_ids` from
`src/primitives/src/atomic/params.rs`: translate the input keys into
id-address form through the host's address resolution. -/
def AtomicExecParamsRaw.input_into_ids (p : AtomicExecParamsRaw) (resolve : Nat → Option Nat) :
    Except String AtomicExecParams :=
  match inputIntoIdsGo resolve p.inputs [] with
  | .error e => .error e
  | .ok inputs2 => .ok { msgs := p.msgs, inputs := inputs2 }

/-- `State` of the SCA (the root object).  Modelled from the spec: the
actor's `state.rs` is not among the crate sources here; the field list
follows the spec's data model together with the fields the actor tests
read (`total_subnets`, `bottomup_msg_meta`). -/
structure State where
  network_name : SubnetID
  total_subnets : Nat
  min_stake : Int
  subnets : List (SubnetID × Subnet)
  check_period : Int
  checkpoints : List (Int × Checkpoint)
  nonce : Nat
  applied_bottomup_nonce : Nat
  applied_topdown_nonce : Nat
  bottomup_msg_meta : List (Nat × CrossMsgMeta)
  atomic_exec_registry : List (Cid × AtomicExec)
deriving DecidableEq, Repr

/-- Modelled from the spec: `State::get_subnet` loads a subnet from the
registry HAMT. -/
def State.get_subnet (st : State) (id : SubnetID) : Option Subnet :=
  lookupA st.subnets id

/-- Modelled from the spec: `State::flush_subnet` writes a subnet back into
the registry under its own id. -/
def State.flush_subnet (st : State) (sub : Subnet) : State :=
  { st with subnets := setA st.subnets sub.id sub }

/-- Modelled from the spec: `State::rm_subnet` removes the registry entry
and decrements the subnet counter. -/
def State.rm_subnet (st : State) (id : SubnetID) : State :=
  { st with subnets := eraseA st.subnets id, total_subnets := st.total_subnets - 1 }

/-- Modelled from the spec: `State::register_subnet` requires the received
value to cover `min_stake` and inserts a fresh `Active` subnet with the
value as stake, an empty top-down queue and no previous checkpoint. -/
def State.register_subnet (st : State) (shid : SubnetID) (value : Int) :
    Except Fault State :=
  if value < st.min_stake then
    .error (.anyhow "call to register doesn't include enough funds")
  else
    let sub : Subnet :=
      { id := shid, stake := value, top_down_msgs := [], nonce := 0,
        circ_supply := 0, status := .Active, prev_checkpoint := none }
    .ok { (st.flush_subnet sub) with total_subnets := st.total_subnets + 1 }

/-- `Subnet::add_stake` from `src/actors/hierarchical_sca/src/subnet.rs`:
adjust the stake by `value` (negative on release), mark the subnet
`Inactive` when the resulting stake is below `min_stake`, and flush.  Note
the source never sets the status back to `Active`. -/
def Subnet.add_stake (sub : Subnet) (st : State) (value : Int) : State :=
  let sub2 := { sub with stake := sub.stake + value }
  let sub3 := if sub2.stake < st.min_stake then { sub2 with status := Status.Inactive } else sub2
  st.flush_subnet sub3

/-- `Subnet::release_supply` from `src/actors/hierarchical_sca/src/subnet.rs`. -/
def Subnet.release_supply (sub : Subnet) (value : Int) : Except Fault Subnet :=
  if sub.circ_supply < value then
    .error (.anyhow "we can't release funds below circ supply")
  else .ok { sub with circ_supply := sub.circ_supply - value }

/-- Modelled from the spec: the window bucket is the current epoch rounded
up to the next multiple of `check_period`. -/
def checkpoint_epoch (epoch period : Int) : Int :=
  if Int.emod epoch period = 0 then epoch else (Int.ediv epoch period + 1) * period

/-- Modelled from the spec: `State::get_window_checkpoint` loads the window
checkpoint of the current epoch bucket, creating an empty one when the
bucket has no checkpoint yet. -/
def State.get_window_checkpoint (st : State) (epoch : Int) : Checkpoint :=
  let bucket := checkpoint_epoch epoch st.check_period
  match lookupA st.checkpoints bucket with
  | some ch => ch
  | none => Checkpoint.new st.network_name bucket

/-- Modelled from the spec: `State::flush_checkpoint` stores a checkpoint
under its epoch. -/
def State.flush_checkpoint (st : State) (ch : Checkpoint) : State :=
  { st with checkpoints := setA st.checkpoints ch.data.epoch ch }

/-- Modelled from the spec: `State::commit_topdown_msg` routes a top-down
message into the queue of the next-hop child subnet toward its destination:
the message's nonce becomes the subnet's nonce, which is then incremented,
and the subnet's circulating supply grows by the message value. -/
def State.commit_topdown_msg (st : State) (msg : StorableMsg) : Except Fault State :=
  match msg.mto.subnet with
  | .error e => .error (.anyhow e)
  | .ok sto =>
    match sto.down st.network_name with
    | none => .error (.anyhow "destination subnet is not below the current network")
    | some shid =>
      match st.get_subnet shid with
      | none => .error (.anyhow "can't commit top-down message for unregistered subnet")
      | some sub =>
        let msg2 := { msg with nonce := sub.nonce }
        let sub2 := { sub with
          top_down_msgs := setA sub.top_down_msgs sub.nonce msg2,
          nonce := sub.nonce + 1,
          circ_supply := sub.circ_supply + msg.value }
        .ok (st.flush_subnet sub2)

/-- Modelled from the spec: `State::commit_bottomup_msg` aggregates a
bottom-up message into the window checkpoint's per-`(from, to)` meta,
summing values and combining the message batches, with the meta nonce drawn
from `State.nonce`, which is then incremented. -/
def State.commit_bottomup_msg (st : State) (msg : StorableMsg) (epoch : Int) :
    Except Fault State :=
  match msg.mto.subnet with
  | .error e => .error (.anyhow e)
  | .ok sto =>
    let ch := st.get_window_checkpoint epoch
    let d := ch.data
    let ch2 : Checkpoint :=
      match d.cross_msgs.find? (fun m => decide (m.mfrom = st.network_name ∧ m.mto = sto)) with
      | some _ =>
        { data := { d with cross_msgs := d.cross_msgs.map (fun m =>
            if m.mfrom = st.network_name ∧ m.mto = sto then
              { m with value := m.value + msg.value,
                       msgs_cid := Nat.pair m.msgs_cid msg.encode }
            else m) } }
      | none =>
        { data := { d with cross_msgs := d.cross_msgs ++
            [{ mfrom := st.network_name, mto := sto, msgs_cid := Nat.pair 0 msg.encode,
               nonce := st.nonce, value := msg.value }] } }
    .ok { (st.flush_checkpoint ch2) with nonce := st.nonce + 1 }

/-- Modelled from the spec: the bottom-up applied-nonce transition.  The
acceptance window (the message nonce must equal the applied nonce or its
successor, and the applied nonce becomes the message nonce) is pinned by
the `test_apply_msg` expectations in `tests/sca_actor_test.rs`. -/
def State.bottomup_state_transition (st : State) (msg : StorableMsg) : Except Fault State :=
  if msg.nonce = st.applied_bottomup_nonce ∨ msg.nonce = st.applied_bottomup_nonce + 1 then
    .ok { st with applied_bottomup_nonce := msg.nonce }
  else .error (.anyhow "the bottom-up message being applied doesn't hold the subsequent nonce")

/-- Loop of `apply_check_msgs` over the metas of a committed child
checkpoint: metas addressed to this network are consumed (recorded in
`bottomup_msg_meta` under `State.nonce`, their value added to the burn
accumulator and released from the child's circulating supply), the rest are
collected for aggregation. -/
def applyCheckGo (net : SubnetID) :
    List CrossMsgMeta → Int × State × Subnet × List CrossMsgMeta →
    Except Fault (Int × State × Subnet × List CrossMsgMeta)
  | [], acc => .ok acc
  | m :: rest, (burn, st, sub, ap) =>
    if m.mto = net then
      match sub.release_supply m.value with
      | .error e => .error e
      | .ok sub2 =>
        let st2 := { st with
          bottomup_msg_meta := setA st.bottomup_msg_meta st.nonce { m with nonce := st.nonce },
          nonce := st.nonce + 1 }
        applyCheckGo net rest (burn + m.value, st2, sub2, ap)
    else applyCheckGo net rest (burn, st, sub, ap ++ [m])

/-- Modelled from the spec: `State::apply_check_msgs` (spec §4.5 step 5). -/
def State.apply_check_msgs (st : State) (sub : Subnet) (commit : Checkpoint) :
    Except Fault (Int × State × Subnet × List CrossMsgMeta) :=
  applyCheckGo st.network_name commit.data.cross_msgs (0, st, sub, [])

/-- One aggregation step of `agg_child_msgmeta`: merge a forwarded meta
into the window checkpoint under the `(current network, destination)` key,
summing values and combining the batches. -/
def aggMeta (net : SubnetID) (ch : Checkpoint) (m : CrossMsgMeta) : Checkpoint :=
  let d := ch.data
  match d.cross_msgs.find? (fun e => decide (e.mfrom = net ∧ e.mto = m.mto)) with
  | some _ =>
    { data := { d with cross_msgs := d.cross_msgs.map (fun e =>
        if e.mfrom = net ∧ e.mto = m.mto then
          { e with value := e.value + m.value, msgs_cid := Nat.pair e.msgs_cid m.msgs_cid }
        else e) } }
  | none => { data := { d with cross_msgs := d.cross_msgs ++ [{ m with mfrom := net }] } }

/-- Modelled from the spec: `State::agg_child_msgmeta` (spec §4.5 step 5). -/
def State.agg_child_msgmeta (st : State) (ch : Checkpoint) (metas : List CrossMsgMeta) :
    Checkpoint :=
  metas.foldl (aggMeta st.network_name) ch

/-- Modelled from the spec: `Checkpoint::add_child_check` appends the
committed checkpoint's Cid to the window's child-check entry for its
source, with set semantics (a duplicate Cid is rejected). -/
def Checkpoint.add_child_check (ch : Checkpoint) (commit : Checkpoint) :
    Except Fault Checkpoint :=
  let c := commit.cid
  let d := ch.data
  match d.children.find? (fun cc => decide (cc.source = commit.data.source)) with
  | some cc =>
    if c ∈ cc.checks then
      .error (.anyhow "child checkpoint being committed already exists")
    else
      .ok { data := { d with children := d.children.map (fun cc2 =>
          if cc2.source = commit.data.source then { cc2 with checks := cc2.checks ++ [c] }
          else cc2) } }
  | none =>
    .ok { data := { d with children :=
        d.children ++ [{ source := commit.data.source, checks := [c] }] } }

/-- Modelled from the spec: `State::get_atomic_exec`. -/
def State.get_atomic_exec (st : State) (c : Cid) : Option AtomicExec :=
  lookupA st.atomic_exec_registry c

/-- Modelled from the spec: `State::set_atomic_exec`. -/
def State.set_atomic_exec (st : State) (c : Cid) (e : AtomicExec) : State :=
  { st with atomic_exec_registry := setA st.atomic_exec_registry c e }

/-- Modelled from the spec: `atomic_exec_checks`, the common checks for
submissions and aborts: the caller must appear among the execution's inputs
(raw-address membership as in `is_addr_in_exec`) and the execution must
still be `Initialized`. -/
def atomic_exec_checks (exec : AtomicExec) (caller : Nat) : Except Fault Unit :=
  if ¬ is_addr_in_exec caller exec.params.inputs then
    .error (.coded .USR_ILLEGAL_ARGUMENT)
  else if exec.status ≠ .Initialized then
    .error (.coded .USR_ILLEGAL_STATE)
  else .ok ()

/-- Loop of `propagate_exec_result`: one top-down message per distinct input
subnet, directed at the locked actor, with the abort (4) or unlock (5)
method of the lockable-actor interface and the agreed output as payload. -/
def propagateGo (abort : Bool) (output : RawParams) :
    List (HierarchicalId × LockedStateInfo) → List SubnetID → State → Except Fault State
  | [], _, st => .ok st
  | (k, info) :: rest, visited, st =>
    if k.1 ∈ visited then propagateGo abort output rest visited st
    else
      let msg : StorableMsg :=
        { mfrom := .hier st.network_name SCA_ACTOR_ID, mto := .hier k.1 info.actor,
          method := if abort then 4 else 5, params := output, value := 0, nonce := 0 }
      match st.commit_topdown_msg msg with
      | .error e => .error e
      | .ok st2 => propagateGo abort output rest (k.1 :: visited) st2

/-- Modelled from the spec: `State::propagate_exec_result` (spec §4.7
Propagate). -/
def State.propagate_exec_result (st : State) (exec : AtomicExec) (output : RawParams)
    (abort : Bool) : Except Fault State :=
  propagateGo abort output exec.params.inputs [] st

/-- Modelled from the spec (§4.7 Submit), with the duplicate and conflicting
submission behavior pinned by `test_atomic_exec`: a missing execution, a
stranger, a resubmission or a mismatched output are rejected as argument
errors; a finalized execution is a state error; when the last input submits
the agreed output the execution succeeds and the result is propagated. -/
def State.submit_atomic_exec (st : State) (caller : Nat) (p : SubmitExecParams) :
    Except Fault (State × ExecStatus) :=
  match st.get_atomic_exec p.cid with
  | none => .error (.coded .USR_ILLEGAL_ARGUMENT)
  | some exec =>
    match atomic_exec_checks exec caller with
    | .error e => .error e
    | .ok _ =>
      if p.abort then
        let exec2 := { exec with status := ExecStatus.Aborted }
        match st.propagate_exec_result exec2 .empty true with
        | .error e => .error e
        | .ok st2 => .ok (st2.set_atomic_exec p.cid exec2, .Aborted)
      else
        let out_cid : Cid := encodeList p.output
        if (lookupA exec.submitted caller).isSome then .error (.coded .USR_ILLEGAL_ARGUMENT)
        else if exec.submitted.any (fun kv => decide (kv.2 ≠ out_cid)) then
          .error (.coded .USR_ILLEGAL_ARGUMENT)
        else
          let exec2 := { exec with submitted := setA exec.submitted caller out_cid }
          if exec2.submitted.length = exec2.params.inputs.length then
            let exec3 := { exec2 with status := ExecStatus.Success }
            match st.propagate_exec_result exec3 (.bytes p.output) false with
            | .error e => .error e
            | .ok st2 => .ok (st2.set_atomic_exec p.cid exec3, .Success)
          else .ok (st.set_atomic_exec p.cid exec2, .Initialized)

/-! ## The host environment and the actor methods (src/actors/hierarchical_sca/src/lib.rs)

Each method becomes a function from the message environment and the current
state to an `MRes`: the exit code (`none` is OK), the state as committed by
the transactions that succeeded, and the list of value-carrying outbound
sends the method emitted, in order.  `rt.transaction` is mirrored by
running the transaction body and keeping the incoming state when it fails.
Host-level behavior out of the SCA's control (the store, nested calls
succeeding, the read-only pubkey query of `resolve_secp_bls`) is modelled
as total: the send log records the explicit value-carrying sends of
`lib.rs` only. -/

/-- The caller type classes checked by `validate_immediate_caller_type`. -/
inductive CallerKind
  | subnet
  | signable
  | other
deriving DecidableEq, Repr

/-- The host message context of one method invocation. -/
structure Env where
  caller : Nat
  caller_kind : CallerKind
  value_received : Int
  curr_epoch : Int
  balance : Int
  resolve_secp : Nat → Option Nat
  resolve_id : Nat → Option Nat

/-- One outbound `rt.send`. -/
structure Send where
  dest : Nat
  method : Nat
  value : Int
deriving DecidableEq, Repr

/-- The outcome of one method invocation. -/
structure MRes where
  res : Option ExitCode
  st : State
  sends : List Send
  retCid : Option Cid := none
deriving DecidableEq, Repr

/-- Failure outcome with no sends. -/
def MRes.fail (c : ExitCode) (st : State) : MRes :=
  { res := some c, st := st, sends := [] }

/-- Success outcome. -/
def MRes.okRes (st : State) (sends : List Send) : MRes :=
  { res := none, st := st, sends := sends }

/-- `ext::reward::EXTERNAL_FUNDING_METHOD` (abstract method number). -/
def EXTERNAL_FUNDING_METHOD : Nat := 1

/-- `FundParams` (release-stake parameters). -/
structure FundParams where
  value : Int
deriving DecidableEq, Repr

/-- `CrossMsgParams` (send-cross parameters). -/
structure CrossMsgParams where
  destination : SubnetID
  msg : StorableMsg
deriving DecidableEq, Repr

/-- `AbortExecParams` from `src/primitives/src/atomic/params.rs`. -/
structure AbortExecParams where
  exec_cid : Cid
deriving DecidableEq, Repr

/-- `Actor::register` from `lib.rs`. -/
def Actor.register (env : Env) (st : State) : MRes :=
  if env.caller_kind ≠ .subnet then .fail .USR_FORBIDDEN st
  else
    let shid := SubnetID.new st.network_name env.caller
    match st.get_subnet shid with
    | some _ => .fail .USR_ILLEGAL_ARGUMENT st
    | none =>
      match st.register_subnet shid env.value_received with
      | .error f => .fail (f.downcast .USR_ILLEGAL_ARGUMENT) st
      | .ok st2 => .okRes st2 []

/-- `Actor::add_stake` from `lib.rs`. -/
def Actor.add_stake (env : Env) (st : State) : MRes :=
  if env.caller_kind ≠ .subnet then .fail .USR_FORBIDDEN st
  else if env.value_received ≤ 0 then .fail .USR_ILLEGAL_ARGUMENT st
  else
    let shid := SubnetID.new st.network_name env.caller
    match st.get_subnet shid with
    | some sub => .okRes (sub.add_stake st env.value_received) []
    | none => .fail .USR_ILLEGAL_ARGUMENT st

/-- `Actor::release_stake` from `lib.rs`: the refund is sent after the
transaction commits. -/
def Actor.release_stake (env : Env) (st : State) (params : FundParams) : MRes :=
  if env.caller_kind ≠ .subnet then .fail .USR_FORBIDDEN st
  else if params.value ≤ 0 then .fail .USR_ILLEGAL_ARGUMENT st
  else
    let shid := SubnetID.new st.network_name env.caller
    match st.get_subnet shid with
    | none => .fail .USR_ILLEGAL_ARGUMENT st
    | some sub =>
      if sub.stake < params.value then .fail .USR_ILLEGAL_STATE st
      else if env.balance < params.value then .fail .USR_ILLEGAL_STATE st
      else .okRes (sub.add_stake st (-params.value))
             [{ dest := env.caller, method := METHOD_SEND, value := params.value }]

/-- `Actor::kill` from `lib.rs`: the stake refund is sent after the
transaction commits. -/
def Actor.kill (env : Env) (st : State) : MRes :=
  if env.caller_kind ≠ .subnet then .fail .USR_FORBIDDEN st
  else
    let shid := SubnetID.new st.network_name env.caller
    match st.get_subnet shid with
    | none => .fail .USR_ILLEGAL_ARGUMENT st
    | some sub =>
      if env.balance < sub.stake then .fail .USR_ILLEGAL_STATE st
      else if 0 < sub.circ_supply then .fail .USR_ILLEGAL_STATE st
      else .okRes (st.rm_subnet shid)
             [{ dest := env.caller, method := METHOD_SEND, value := sub.stake }]

/-- The tail of the `commit_child_check` transaction after the
previous-checkpoint validations: apply the committed metas, aggregate the
forwarded ones into the window checkpoint, record the child's Cid, flush
the checkpoint and the child subnet with its new `prev_checkpoint`. -/
def commitChildRest (env : Env) (st : State) (commit : Checkpoint) (sub : Subnet) :
    Except ExitCode (State × Int) :=
  match st.apply_check_msgs sub commit with
  | .error f => .error (f.downcast .USR_ILLEGAL_STATE)
  | .ok (burn, st2, sub2, ap) =>
    match (st2.agg_child_msgmeta (st.get_window_checkpoint env.curr_epoch) ap).add_child_check
        commit with
    | .error f => .error (f.downcast .USR_ILLEGAL_ARGUMENT)
    | .ok ch3 =>
      .ok ((st2.flush_checkpoint ch3).flush_subnet
        { sub2 with prev_checkpoint := some commit }, burn)

/-- The transaction body of `Actor::commit_child_check` from `lib.rs`. -/
def commitChildTx (env : Env) (st : State) (commit : Checkpoint) :
    Except ExitCode (State × Int) :=
  match st.get_subnet (SubnetID.new st.network_name env.caller) with
  | none => .error .USR_ILLEGAL_ARGUMENT
  | some sub =>
    if sub.status ≠ .Active then .error .USR_ILLEGAL_STATE
    else
      match sub.prev_checkpoint with
      | some prev =>
        if prev.data.epoch > commit.data.epoch then .error .USR_ILLEGAL_ARGUMENT
        else if commit.data.prev_check ≠ prev.cid then .error .USR_ILLEGAL_ARGUMENT
        else commitChildRest env st commit sub
      | none => commitChildRest env st commit sub

/-- `Actor::commit_child_check` from `lib.rs`: the burn is sent only after
the transaction commits, and only when the accumulator is positive. -/
def Actor.commit_child_check (env : Env) (st : State) (commit : Checkpoint) : MRes :=
  if env.caller_kind ≠ .subnet then .fail .USR_FORBIDDEN st
  else if env.caller ≠ commit.data.source.subnet_actor then .fail .USR_ILLEGAL_ARGUMENT st
  else
    match commitChildTx env st commit with
    | .error c => .fail c st
    | .ok (st2, burn) =>
      .okRes st2 (if 0 < burn then
        [{ dest := BURNT_FUNDS_ACTOR_ID, method := METHOD_SEND, value := burn }] else [])

/-- `Actor::fund` from `lib.rs`. -/
def Actor.fund (env : Env) (st : State) (params : SubnetID) : MRes :=
  if env.caller_kind ≠ .signable then .fail .USR_FORBIDDEN st
  else if env.value_received ≤ 0 then .fail .USR_ILLEGAL_ARGUMENT st
  else
    match env.resolve_secp env.caller with
    | none => .fail .USR_ILLEGAL_ARGUMENT st
    | some sig =>
      match StorableMsg.new_fund_msg params sig env.value_received with
      | .error _ => .fail .USR_ILLEGAL_STATE st
      | .ok f_msg =>
        match st.commit_topdown_msg f_msg with
        | .error f => .fail (f.downcast .USR_ILLEGAL_STATE) st
        | .ok st2 => .okRes st2 []

/-- `Actor::release` from `lib.rs`: the released value is burnt BEFORE the
state transaction runs, so the burn send is part of the outcome even when
the transaction subsequently fails. -/
def Actor.release (env : Env) (st : State) : MRes :=
  if env.caller_kind ≠ .signable then .fail .USR_FORBIDDEN st
  else if env.value_received ≤ 0 then .fail .USR_ILLEGAL_ARGUMENT st
  else
    match env.resolve_secp env.caller with
    | none => .fail .USR_ILLEGAL_ARGUMENT st
    | some sig =>
      let burn : Send :=
        { dest := BURNT_FUNDS_ACTOR_ID, method := METHOD_SEND, value := env.value_received }
      match StorableMsg.new_release_msg st.network_name sig env.value_received st.nonce with
      | .error _ => { res := some .USR_ILLEGAL_STATE, st := st, sends := [burn] }
      | .ok r_msg =>
        match st.commit_bottomup_msg r_msg env.curr_epoch with
        | .error f => { res := some (f.downcast .USR_ILLEGAL_STATE), st := st, sends := [burn] }
        | .ok st2 => .okRes st2 [burn]

/-- Modelled from the spec: `State::send_cross` classifies the message by
its native direction and commits it bottom-up or top-down accordingly,
returning the direction taken. -/
def State.send_cross (st : State) (msg : StorableMsg) (epoch : Int) :
    Except Fault (State × HCMsgType) :=
  match msg.hc_type with
  | .error e => .error (.anyhow e)
  | .ok .BottomUp =>
    match st.commit_bottomup_msg msg epoch with
    | .error e => .error e
    | .ok st2 => .ok (st2, .BottomUp)
  | .ok .TopDown =>
    match st.commit_topdown_msg msg with
    | .error e => .error e
    | .ok st2 => .ok (st2, .TopDown)
  | .ok .Unknown => .error (.anyhow "cross-message has unknown type")

/-- `Actor::send_cross` from `lib.rs`: the burn of a bottom-up message's
value happens only after the transaction commits. -/
def Actor.send_cross (env : Env) (st : State) (params : CrossMsgParams) : MRes :=
  if env.caller_kind ≠ .signable then .fail .USR_FORBIDDEN st
  else if params.destination = (⟨[]⟩ : SubnetID) then .fail .USR_ILLEGAL_ARGUMENT st
  else
    match env.resolve_secp env.caller with
    | none => .fail .USR_ILLEGAL_ARGUMENT st
    | some sig =>
      if params.destination = st.network_name then .fail .USR_ILLEGAL_ARGUMENT st
      else
        match params.msg.mto with
        | .hier _ _ => .fail .USR_ILLEGAL_ARGUMENT st
        | .raw rawTo =>
          let msg : StorableMsg := { params.msg with
            mto := .hier params.destination rawTo,
            mfrom := .hier st.network_name sig }
          match st.send_cross msg env.curr_epoch with
          | .error f => .fail (f.downcast .USR_ILLEGAL_STATE) st
          | .ok (st2, tp) =>
            .okRes st2 (if tp = .BottomUp ∧ 0 < msg.value then
              [{ dest := BURNT_FUNDS_ACTOR_ID, method := METHOD_SEND, value := msg.value }]
            else [])

/-- `run_cross_msg` from `lib.rs`: a cross-message directed at the SCA
itself is handled internally (only `SubmitAtomicExec = 13`); any other
target is delivered by a host send.  The participant identity handed to the
submission is the raw part of the cross-message's hierarchical `from`
address (modelled from the spec, the loader of the caller identity being in
the missing `state.rs`). -/
def run_cross_msg (env : Env) (st : State) (msg : StorableMsg) : MRes :=
  match msg.mto.raw_addr with
  | .error _ => .fail .USR_ILLEGAL_ARGUMENT st
  | .ok rto =>
    if rto = SCA_ACTOR_ID then
      if msg.method = 13 then
        match msg.params with
        | .submitExec p =>
          match msg.mfrom.raw_addr with
          | .error _ => .fail .USR_ILLEGAL_ARGUMENT st
          | .ok cfrom =>
            match st.submit_atomic_exec cfrom p with
            | .error f => .fail (f.downcast .USR_ILLEGAL_STATE) st
            | .ok (st2, _) => .okRes st2 []
        | _ => .fail .USR_SERIALIZATION st
      else .fail .USR_ILLEGAL_ARGUMENT st
    else
      .okRes st [{ dest := rto, method := msg.method, value := msg.value }]

/-- The top-down transaction of `Actor::apply_msg` from `lib.rs`: the
message nonce must equal `applied_topdown_nonce`, which is then
incremented; a message not directed at this network is re-committed
downward. -/
def applyTopdownTx (st : State) (msg : StorableMsg) (sto : SubnetID) : Except ExitCode State :=
  if st.applied_topdown_nonce ≠ msg.nonce then .error .USR_ILLEGAL_STATE
  else if sto ≠ st.network_name then
    match ({ st with applied_topdown_nonce := st.applied_topdown_nonce + 1 } :
        State).commit_topdown_msg msg with
    | .error f => .error (f.downcast .USR_ILLEGAL_STATE)
    | .ok st3 => .ok st3
  else .ok { st with applied_topdown_nonce := st.applied_topdown_nonce + 1 }

/-- The bottom-up transaction of `Actor::apply_msg` from `lib.rs`. -/
def applyBottomupTx (st : State) (msg : StorableMsg) (sto : SubnetID) : Except ExitCode State :=
  match st.bottomup_state_transition msg with
  | .error f => .error (f.downcast .USR_ILLEGAL_STATE)
  | .ok st2 =>
    if sto ≠ st2.network_name then
      match st2.commit_topdown_msg msg with
      | .error f => .error (f.downcast .USR_ILLEGAL_STATE)
      | .ok st3 => .ok st3
    else .ok st2

/-- `Actor::apply_msg` from `lib.rs`: in the top-down branch the mint
request to the reward actor is sent BEFORE the nonce transaction, and in
both branches a message directed at the current network is executed through
`run_cross_msg` after the transaction committed. -/
def Actor.apply_msg (env : Env) (st : State) (params : StorableMsg) : MRes :=
  if env.caller ≠ SYSTEM_ACTOR_ID then .fail .USR_FORBIDDEN st
  else
    let msg := params
    match msg.mto.subnet with
    | .error _ => .fail .USR_ILLEGAL_ARGUMENT st
    | .ok sto =>
      match msg.apply_type st.network_name with
      | .ok .BottomUp =>
        match applyBottomupTx st msg sto with
        | .error c => .fail c st
        | .ok st2 =>
          if sto = st.network_name then run_cross_msg env st2 msg
          else .okRes st2 []
      | .ok .TopDown =>
        let mint : Send := { dest := REWARD_ACTOR_ID, method := EXTERNAL_FUNDING_METHOD, value := 0 }
        match applyTopdownTx st msg sto with
        | .error c => { res := some c, st := st, sends := [mint] }
        | .ok st2 =>
          if sto = st.network_name then
            let r := run_cross_msg env st2 msg
            { r with sends := mint :: r.sends }
          else .okRes st2 [mint]
      | _ => .fail .USR_ILLEGAL_ARGUMENT st

/-- The transaction body of `Actor::init_atomic_exec` from `lib.rs`. -/
def initAtomicTx (st : State) (cid : Cid) (params : AtomicExecParams) : Except ExitCode State :=
  match st.get_atomic_exec cid with
  | some _ => .error .USR_ILLEGAL_ARGUMENT
  | none =>
    if params.msgs.length = 0 ∨ params.inputs.length < 2 then .error .USR_ILLEGAL_ARGUMENT
    else
      match is_common_parent st.network_name params.inputs with
      | .error _ => .error .USR_ILLEGAL_ARGUMENT
      | .ok cp =>
        if ¬ cp then .error .USR_ILLEGAL_ARGUMENT
        else
          match params.msgs with
          | [] => .error .USR_ILLEGAL_ARGUMENT
          | m0 :: _ =>
            if params.msgs.any (fun m =>
                decide (m.method ≠ m0.method) || decide (m.mto ≠ m0.mto)) then
              .error .USR_ILLEGAL_ARGUMENT
            else .ok (st.set_atomic_exec cid (AtomicExec.new params))

/-- `Actor::init_atomic_exec` from `lib.rs`: the execution Cid is computed
from the raw parameters, the inputs are resolved to id addresses, and the
transaction validates and persists the new execution; the Cid is returned. -/
def Actor.init_atomic_exec (env : Env) (st : State) (params : AtomicExecParamsRaw) : MRes :=
  if env.caller_kind ≠ .signable then .fail .USR_FORBIDDEN st
  else
    let cid := params.cid
    match params.input_into_ids env.resolve_id with
    | .error _ => .fail .USR_ILLEGAL_ARGUMENT st
    | .ok params2 =>
      match initAtomicTx st cid params2 with
      | .error c => .fail c st
      | .ok st2 => { res := none, st := st2, sends := [], retCid := some cid }

/-- `Actor::abort_atomic_exec` from `lib.rs`. -/
def Actor.abort_atomic_exec (env : Env) (st : State) (params : AbortExecParams) : MRes :=
  if env.caller_kind ≠ .signable then .fail .USR_FORBIDDEN st
  else
    match st.get_atomic_exec params.exec_cid with
    | none => .fail .USR_ILLEGAL_ARGUMENT st
    | some exec =>
      match atomic_exec_checks exec env.caller with
      | .error f => .fail (f.downcast .USR_ILLEGAL_ARGUMENT) st
      | .ok _ =>
        let exec2 := { exec with status := ExecStatus.Aborted }
        match st.propagate_exec_result exec2 .empty true with
        | .error f => .fail (f.downcast .USR_ILLEGAL_STATE) st
        | .ok st2 => .okRes (st2.set_atomic_exec params.exec_cid exec2) []

/-- The method surface of the SCA (`Method` in `lib.rs`; the constructor,
which creates a fresh state, is not a transition of an existing state). -/
inductive MethodCall
  | Register
  | AddStake
  | ReleaseStake (params : FundParams)
  | Kill
  | CommitChildCheckpoint (params : Checkpoint)
  | Fund (params : SubnetID)
  | Release
  | SendCross (params : CrossMsgParams)
  | ApplyMessage (params : StorableMsg)
  | InitAtomicExec (params : AtomicExecParamsRaw)
  | AbortAtomicExec (params : AbortExecParams)
deriving DecidableEq, Repr

/-- `ActorCode::invoke_method` from `lib.rs`: dispatch one method call. -/
def stepM : MethodCall → Env → State → MRes
  | .Register, env, st => Actor.register env st
  | .AddStake, env, st => Actor.add_stake env st
  | .ReleaseStake p, env, st => Actor.release_stake env st p
  | .Kill, env, st => Actor.kill env st
  | .CommitChildCheckpoint p, env, st => Actor.commit_child_check env st p
  | .Fund p, env, st => Actor.fund env st p
  | .Release, env, st => Actor.release env st
  | .SendCross p, env, st => Actor.send_cross env st p
  | .ApplyMessage p, env, st => Actor.apply_msg env st p
  | .InitAtomicExec p, env, st => Actor.init_atomic_exec env st p
  | .AbortAtomicExec p, env, st => Actor.abort_atomic_exec env st p

/-- Run a sequence of method invocations, each with its own message
environment, threading the state. -/
def runSeq (st : State) : List (MethodCall × Env) → State
  | [] => st
  | (m, env) :: rest => runSeq (stepM m env st).st rest

/-! ## Claim theorems: cross-message classification (C4, C5) -/

/-- `is_bottomup` holds exactly when the common parent exists and the source
path lies strictly below it. -/
theorem is_bottomup_iff (sf st_ : SubnetID) :
    is_bottomup sf st_ = true ↔
      ∃ ind p, sf.common_parent st_ = some (ind, p) ∧ sf.pathDepth > ind := by
  unfold is_bottomup
  cases h : sf.common_parent st_ with
  | none => simp
  | some v =>
    cases v with
    | mk ind p => simp

/-- On hierarchical endpoints `hc_type` computes to the `is_bottomup` test. -/
theorem hc_type_eq (sf st_ : SubnetID) (rf rt_ mth : Nat) (ps : RawParams)
    (v : Int) (n : Nat) :
    (StorableMsg.mk (.hier sf rf) (.hier st_ rt_) mth ps v n).hc_type =
      if is_bottomup sf st_ then .ok .BottomUp else .ok .TopDown := rfl

/-- Claim C4: for a `StorableMsg` whose `from` and `to` are hierarchical,
the native classification `hc_type` is `BottomUp` iff `from.subnet` lies
strictly below the common parent of the two subnets — the depth of
`from.subnet` exceeds the index returned by `common_parent` — and `TopDown`
otherwise; in particular it is `TopDown` when the subnets have no common
parent, and it always succeeds on hierarchical addresses. -/
theorem claim_c4_hc_type_bottomup (m : StorableMsg) (sf : SubnetID) (rf : Nat)
    (st_ : SubnetID) (rt_ : Nat)
    (hf : m.mfrom = .hier sf rf) (ht : m.mto = .hier st_ rt_) :
    (m.hc_type = .ok .BottomUp ↔
      ∃ ind p, sf.common_parent st_ = some (ind, p) ∧ sf.pathDepth > ind) ∧
    (sf.common_parent st_ = none → m.hc_type = .ok .TopDown) ∧
    (m.hc_type = .ok .BottomUp ∨ m.hc_type = .ok .TopDown) := by
  obtain ⟨mf, mt, mth, mp, mv, mn⟩ := m
  simp only at hf ht
  subst hf ht
  rw [hc_type_eq]
  have hb := is_bottomup_iff sf st_
  by_cases h : is_bottomup sf st_
  · rw [if_pos h]
    have hex := hb.mp h
    refine ⟨⟨fun _ => hex, fun _ => rfl⟩, ?_, Or.inl rfl⟩
    intro hn
    obtain ⟨ind, p, hcp, _⟩ := hex
    rw [hn] at hcp
    cases hcp
  · rw [if_neg h]
    exact ⟨⟨fun hcontra => absurd hcontra (by simp),
            fun hex => absurd (hb.mpr hex) h⟩,
           fun _ => rfl, Or.inr rfl⟩

/-- Witness for C4 at a concrete bottom-up message. -/
theorem claim_c4_witness :
    ({ mfrom := .hier ⟨[0, 1]⟩ 7, mto := .hier ⟨[0, 2]⟩ 8, method := 0,
       params := .empty, value := 1, nonce := 0 } : StorableMsg).hc_type = .ok .BottomUp := by
  have h := claim_c4_hc_type_bottomup
    { mfrom := .hier ⟨[0, 1]⟩ 7, mto := .hier ⟨[0, 2]⟩ 8, method := 0,
      params := .empty, value := 1, nonce := 0 }
    ⟨[0, 1]⟩ 7 ⟨[0, 2]⟩ 8 rfl rfl
  exact h.1.mpr ⟨1, ⟨[0]⟩, by decide, by decide⟩

/-- Claim C5: `apply_type` returns `BottomUp` iff the native classification
is `BottomUp` and the common parent of the current subnet with the
destination coincides with the common parent of the source with the
destination; in every other case it returns `TopDown`. -/
theorem claim_c5_apply_type (m : StorableMsg) (sf : SubnetID) (rf : Nat)
    (st_ : SubnetID) (rt_ : Nat) (curr : SubnetID)
    (hf : m.mfrom = .hier sf rf) (ht : m.mto = .hier st_ rt_) :
    (m.apply_type curr = .ok .BottomUp ↔
      (m.hc_type = .ok .BottomUp ∧
       curr.common_parent st_ = sf.common_parent st_)) ∧
    (m.apply_type curr = .ok .BottomUp ∨ m.apply_type curr = .ok .TopDown) := by
  obtain ⟨mf, mt, mth, mp, mv, mn⟩ := m
  simp only at hf ht
  subst hf ht
  rw [hc_type_eq]
  by_cases hcp : curr.common_parent st_ = sf.common_parent st_ <;>
    by_cases h : is_bottomup sf st_ <;>
      simp [StorableMsg.apply_type, Address.subnet, hcp, h, hc_type_eq]

/-- Witness for C5: a natively bottom-up message applied at an ancestor of
the true common parent is effectively top-down. -/
theorem claim_c5_witness :
    ({ mfrom := .hier ⟨[0, 1, 5]⟩ 7, mto := .hier ⟨[0, 1, 6]⟩ 8, method := 0,
       params := .empty, value := 1, nonce := 0 } : StorableMsg).apply_type ⟨[0]⟩ =
      .ok .TopDown := by
  have h := claim_c5_apply_type
    { mfrom := .hier ⟨[0, 1, 5]⟩ 7, mto := .hier ⟨[0, 1, 6]⟩ 8, method := 0,
      params := .empty, value := 1, nonce := 0 }
    ⟨[0, 1, 5]⟩ 7 ⟨[0, 1, 6]⟩ 8 ⟨[0]⟩ rfl rfl
  rcases h.2 with hb | ht2
  · exfalso
    have := h.1.mp hb
    exact absurd this.2 (by decide)
  · exact ht2

/-! ## Claim theorem: TCid modify (C9) -/

/-- Claim C9: for every handle, store and function `f`: when `f` fails on
the loaded value, `modify` returns that error and neither the handle's Cid
nor the store changes; when `f` succeeds, `modify` flushes the modified
value to the store and the handle's Cid becomes the flushed root. -/
theorem claim_c9_tcid_modify {V R : Type} (h : V → Nat) (t : TCid) (store : Store V)
    (f : V → Except String (V × R)) (v : V)
    (hv : lookupA store t.cid = some v) :
    (∀ e, f v = .error e → TCid.modify h t store f = (t, store, .error e)) ∧
    (∀ v2 r, f v = .ok (v2, r) →
      TCid.modify h t store f = ({ cid := h v2 }, setA store (h v2) v2, .ok r)) := by
  constructor
  · intro e he
    simp [TCid.modify, TCid.get, TCid.put, hv, he]
  · intro v2 r hok
    simp [TCid.modify, TCid.get, TCid.put, hv, hok]

/-- Witness for C9 applying `modify` at a concrete store, in both the
failing and the succeeding shape. -/
theorem claim_c9_witness :
    TCid.modify (fun v => v + 10) (⟨1⟩ : TCid) ([(1, 5)] : Store Nat)
        (fun v => .ok (v + 1, v)) = (⟨16⟩, setA [(1, 5)] 16 6, .ok 5) ∧
    TCid.modify (fun v => v + 10) (⟨1⟩ : TCid) ([(1, 5)] : Store Nat)
        (fun _ => (.error "boom" : Except String (Nat × Nat))) =
      (⟨1⟩, [(1, 5)], .error "boom") := by
  constructor
  · exact (claim_c9_tcid_modify (fun v => v + 10) ⟨1⟩ [(1, 5)]
      (fun v => .ok (v + 1, v)) 5 rfl).2 6 5 rfl
  · exact (claim_c9_tcid_modify (fun v => v + 10) ⟨1⟩ [(1, 5)]
      (fun _ => .error "boom") 5 rfl).1 "boom" rfl

/-! ## Claim theorem: CrossMsgs batching (C10) -/

/-- Membership in the metas after `add_metas`. -/
theorem addMetas_mem (l : List CrossMsgMeta) (cm : CrossMsgs) (x : CrossMsgMeta) :
    x ∈ (cm.add_metas l).metas ↔ x ∈ cm.metas ∨ x ∈ l := by
  induction l generalizing cm with
  | nil => simp [CrossMsgs.add_metas]
  | cons m rest ih =>
    rw [CrossMsgs.add_metas]
    by_cases hm : m ∈ cm.metas
    · rw [if_pos hm, ih]
      constructor
      · rintro (h | h)
        · exact Or.inl h
        · exact Or.inr (List.mem_cons_of_mem _ h)
      · rintro (h | h)
        · exact Or.inl h
        · rcases List.mem_cons.mp h with h | h
          · exact Or.inl (h ▸ hm)
          · exact Or.inr h
    · rw [if_neg hm, ih]
      simp only [List.mem_append, List.mem_singleton, List.mem_cons]
      tauto

/-- `add_metas` is the identity when every meta of the batch is already
present. -/
theorem addMetas_id_of_subset (l : List CrossMsgMeta) (cm : CrossMsgs)
    (h : ∀ x ∈ l, x ∈ cm.metas) : cm.add_metas l = cm := by
  induction l generalizing cm with
  | nil => rfl
  | cons m rest ih =>
    rw [CrossMsgs.add_metas]
    have hm : m ∈ cm.metas := h m (List.mem_cons_self m rest)
    rw [if_pos hm]
    exact ih cm (fun x hx => h x (List.mem_cons_of_mem _ hx))

/-- `add_metas` preserves duplicate-freedom of the metas vector. -/
theorem addMetas_nodup (l : List CrossMsgMeta) (cm : CrossMsgs)
    (h : cm.metas.Nodup) : ((cm.add_metas l).metas).Nodup := by
  induction l generalizing cm with
  | nil => exact h
  | cons m rest ih =>
    rw [CrossMsgs.add_metas]
    by_cases hm : m ∈ cm.metas
    · rw [if_pos hm]
      exact ih cm h
    · rw [if_neg hm]
      refine ih _ ?_
      show (cm.metas ++ [m]).Nodup
      rw [List.nodup_append]
      refine ⟨h, List.nodup_singleton m, ?_⟩
      intro a ha hb
      rw [List.mem_singleton] at hb
      subst hb
      exact hm ha

/-- Claim C10: `add_metas` skips metas already present, hence it is
idempotent and never introduces duplicate entries, whereas `add_msg`
appends unconditionally, so the msgs vector can hold duplicates. -/
theorem claim_c10_crossmsgs :
    (∀ (cm : CrossMsgs) (l : List CrossMsgMeta),
        (cm.add_metas l).add_metas l = cm.add_metas l) ∧
    (∀ (cm : CrossMsgs) (l : List CrossMsgMeta),
        cm.metas.Nodup → ((cm.add_metas l).metas).Nodup) ∧
    (∀ (cm : CrossMsgs) (m : StorableMsg), (cm.add_msg m).msgs = cm.msgs ++ [m]) ∧
    (∃ (cm : CrossMsgs) (m : StorableMsg),
        ¬ (((cm.add_msg m).add_msg m).msgs).Nodup) := by
  refine ⟨?_, ?_, ?_, ?_⟩
  · intro cm l
    exact addMetas_id_of_subset l _ (fun x hx => (addMetas_mem l cm x).mpr (Or.inr hx))
  · intro cm l h
    exact addMetas_nodup l cm h
  · intro cm m
    rfl
  · refine ⟨⟨[], []⟩, ⟨.raw 0, .raw 0, 0, .empty, 0, 0⟩, ?_⟩
    simp [CrossMsgs.add_msg]

/-- Witness for C10 at a concrete batch. -/
theorem claim_c10_witness :
    ((⟨[], []⟩ : CrossMsgs).add_metas
        [⟨⟨[0]⟩, ⟨[0, 1]⟩, 0, 0, 1⟩, ⟨⟨[0]⟩, ⟨[0, 1]⟩, 0, 0, 1⟩]).add_metas
        [⟨⟨[0]⟩, ⟨[0, 1]⟩, 0, 0, 1⟩, ⟨⟨[0]⟩, ⟨[0, 1]⟩, 0, 0, 1⟩] =
      (⟨[], []⟩ : CrossMsgs).add_metas
        [⟨⟨[0]⟩, ⟨[0, 1]⟩, 0, 0, 1⟩, ⟨⟨[0]⟩, ⟨[0, 1]⟩, 0, 0, 1⟩] := by
  exact claim_c10_crossmsgs.1 ⟨[], []⟩ _

/-! ## Claim theorem: kill (C7) -/

/-- Claim C7: `kill` succeeds only for a registered subnet with no
circulating supply: with `circ_supply > 0` it fails with
`USR_ILLEGAL_STATE` leaving the registry (indeed the whole state)
unchanged, and on success the entry is removed and the full stake is sent
back to the subnet actor. -/
theorem claim_c7_kill (env : Env) (st : State) (hk : env.caller_kind = .subnet) :
    (∀ sub, st.get_subnet (SubnetID.new st.network_name env.caller) = some sub →
        0 < sub.circ_supply → Actor.kill env st = .fail .USR_ILLEGAL_STATE st) ∧
    ((Actor.kill env st).res = none →
      ∃ sub, st.get_subnet (SubnetID.new st.network_name env.caller) = some sub ∧
        ¬ 0 < sub.circ_supply ∧
        (Actor.kill env st).st = st.rm_subnet (SubnetID.new st.network_name env.caller) ∧
        (Actor.kill env st).sends =
          [{ dest := env.caller, method := METHOD_SEND, value := sub.stake }]) := by
  constructor
  · intro sub hsub hcs
    by_cases hb : env.balance < sub.stake
    · simp [Actor.kill, hk, hsub, hb]
    · simp [Actor.kill, hk, hsub, hb, hcs]
  · intro hres
    cases hsub : st.get_subnet (SubnetID.new st.network_name env.caller) with
    | none =>
      have heq : Actor.kill env st = .fail .USR_ILLEGAL_ARGUMENT st := by
        simp [Actor.kill, hk, hsub]
      rw [heq] at hres
      cases hres
    | some sub =>
      by_cases hb : env.balance < sub.stake
      · have heq : Actor.kill env st = .fail .USR_ILLEGAL_STATE st := by
          simp [Actor.kill, hk, hsub, hb]
        rw [heq] at hres
        cases hres
      · by_cases hcs : 0 < sub.circ_supply
        · have heq : Actor.kill env st = .fail .USR_ILLEGAL_STATE st := by
            simp [Actor.kill, hk, hsub, hb, hcs]
          rw [heq] at hres
          cases hres
        · have heq : Actor.kill env st =
              .okRes (st.rm_subnet (SubnetID.new st.network_name env.caller))
                [{ dest := env.caller, method := METHOD_SEND, value := sub.stake }] := by
            simp [Actor.kill, hk, hsub, hb, hcs]
          refine ⟨sub, rfl, hcs, ?_, ?_⟩
          · rw [heq]
            rfl
          · rw [heq]
            rfl

/-- Witness for C7: killing a funded subnet fails with an illegal-state
error and an unfunded one is removed with its stake refunded. -/
theorem claim_c7_witness :
    (Actor.kill
        { caller := 7, caller_kind := .subnet, value_received := 0, curr_epoch := 0,
          balance := 100, resolve_secp := fun _ => none, resolve_id := fun _ => none }
        { network_name := ⟨[0]⟩, total_subnets := 1, min_stake := 10,
          subnets := [(⟨[0, 7]⟩,
            { id := ⟨[0, 7]⟩, stake := 10, top_down_msgs := [], nonce := 0,
              circ_supply := 3, status := .Active, prev_checkpoint := none })],
          check_period := 10, checkpoints := [], nonce := 0,
          applied_bottomup_nonce := 0, applied_topdown_nonce := 0,
          bottomup_msg_meta := [], atomic_exec_registry := [] }).res =
      some .USR_ILLEGAL_STATE := by
  have h := claim_c7_kill
    { caller := 7, caller_kind := .subnet, value_received := 0, curr_epoch := 0,
      balance := 100, resolve_secp := fun _ => none, resolve_id := fun _ => none }
    { network_name := ⟨[0]⟩, total_subnets := 1, min_stake := 10,
      subnets := [(⟨[0, 7]⟩,
        { id := ⟨[0, 7]⟩, stake := 10, top_down_msgs := [], nonce := 0,
          circ_supply := 3, status := .Active, prev_checkpoint := none })],
      check_period := 10, checkpoints := [], nonce := 0,
      applied_bottomup_nonce := 0, applied_topdown_nonce := 0,
      bottomup_msg_meta := [], atomic_exec_registry := [] } rfl
  rw [h.1 { id := ⟨[0, 7]⟩, stake := 10, top_down_msgs := [], nonce := 0,
            circ_supply := 3, status := .Active, prev_checkpoint := none }
        (by decide) (by decide)]
  rfl

/-! ## Claim theorem: checkpoint commitment validations (C6) -/

/-- `applyCheckGo` only changes the state's `bottomup_msg_meta` and `nonce`
and the child subnet's `circ_supply`. -/
theorem applyCheckGo_shape (net : SubnetID) (l : List CrossMsgMeta)
    (acc out : Int × State × Subnet × List CrossMsgMeta)
    (h : applyCheckGo net l acc = .ok out) :
    ∃ bm n cs,
      out.2.1 = { acc.2.1 with bottomup_msg_meta := bm, nonce := n } ∧
      out.2.2.1 = { acc.2.2.1 with circ_supply := cs } := by
  induction l generalizing acc with
  | nil =>
    obtain ⟨burn, st1, sub1, ap⟩ := acc
    simp only [applyCheckGo] at h
    injection h with h2
    subst h2
    exact ⟨st1.bottomup_msg_meta, st1.nonce, sub1.circ_supply, rfl, rfl⟩
  | cons m rest ih =>
    obtain ⟨burn, st1, sub1, ap⟩ := acc
    simp only [applyCheckGo] at h
    by_cases hm : m.mto = net
    · rw [if_pos hm] at h
      cases hrel : sub1.release_supply m.value with
      | error e =>
        rw [hrel] at h
        cases h
      | ok sub2 =>
        rw [hrel] at h
        have hsub2 : sub2 = { sub1 with circ_supply := sub1.circ_supply - m.value } := by
          unfold Subnet.release_supply at hrel
          split at hrel
          · cases hrel
          · injection hrel with h3
            exact h3.symm
        subst hsub2
        obtain ⟨bm, n, cs, h1, h2⟩ := ih _ h
        exact ⟨bm, n, cs, h1, h2⟩
    · rw [if_neg hm] at h
      obtain ⟨bm, n, cs, h1, h2⟩ := ih _ h
      exact ⟨bm, n, cs, h1, h2⟩

/-- On success, `commitChildRest` stores the committed checkpoint as the
subnet's `prev_checkpoint` in the registry. -/
theorem commitChildRest_prev (env : Env) (st : State) (commit : Checkpoint)
    (sub : Subnet) (out : State × Int)
    (h : commitChildRest env st commit sub = .ok out) :
    ∃ sub3, out.1.get_subnet sub.id = some sub3 ∧ sub3.prev_checkpoint = some commit := by
  unfold commitChildRest at h
  cases hap : st.apply_check_msgs sub commit with
  | error f =>
    rw [hap] at h
    cases h
  | ok tuple =>
    obtain ⟨burn, st2, sub2, ap⟩ := tuple
    rw [hap] at h
    have h' : (match (st2.agg_child_msgmeta (st.get_window_checkpoint env.curr_epoch)
          ap).add_child_check commit with
        | .error f => (.error (f.downcast .USR_ILLEGAL_ARGUMENT) : Except ExitCode (State × Int))
        | .ok ch3 =>
          .ok ((st2.flush_checkpoint ch3).flush_subnet
            { sub2 with prev_checkpoint := some commit }, burn)) = .ok out := h
    clear h
    cases hadd : (st2.agg_child_msgmeta (st.get_window_checkpoint env.curr_epoch) ap).add_child_check commit with
    | error f =>
      rw [hadd] at h'
      cases h'
    | ok ch3 =>
      rw [hadd] at h'
      injection h' with h2
      have hidsub : sub2.id = sub.id := by
        obtain ⟨bm, n, cs, h3, h4⟩ := applyCheckGo_shape st.network_name
          commit.data.cross_msgs (0, st, sub, []) (burn, st2, sub2, ap) hap
        simp only at h4
        rw [h4]
      refine ⟨{ sub2 with prev_checkpoint := some commit }, ?_, rfl⟩
      have hout1 : out.1 = ((st2.flush_checkpoint ch3).flush_subnet
          { sub2 with prev_checkpoint := some commit }) := by
        rw [show out = ((st2.flush_checkpoint ch3).flush_subnet
            { sub2 with prev_checkpoint := some commit }, burn) from h2.symm]
      rw [hout1]
      unfold State.flush_subnet State.get_subnet
      simp only
      rw [show ({ sub2 with prev_checkpoint := some commit } : Subnet).id = sub.id from hidsub]
      exact lookupA_setA_self _ _ _

/-- `commitChildTx` on a registered, active subnet reduces to its
previous-checkpoint validations. -/
theorem commitChildTx_of_some (env : Env) (st : State) (commit : Checkpoint) (sub : Subnet)
    (hsub : st.get_subnet (SubnetID.new st.network_name env.caller) = some sub)
    (hact : sub.status = .Active) :
    commitChildTx env st commit =
      (match sub.prev_checkpoint with
       | some prev =>
         if prev.data.epoch > commit.data.epoch then .error .USR_ILLEGAL_ARGUMENT
         else if commit.data.prev_check ≠ prev.cid then .error .USR_ILLEGAL_ARGUMENT
         else commitChildRest env st commit sub
       | none => commitChildRest env st commit sub) := by
  unfold commitChildTx
  rw [hsub]
  simp [hact]

/-- Claim C6: on a registered, `Active` subnet that already has a previous
checkpoint, `commit_child_check` fails with `USR_ILLEGAL_ARGUMENT`
(leaving the state unchanged) whenever the committed epoch precedes the
previous checkpoint's epoch or the committed `prev_check` Cid differs from
the previous checkpoint's Cid; and when the call succeeds, the committed
checkpoint becomes the subnet's new `prev_checkpoint`. -/
theorem claim_c6_commit_child_check (env : Env) (st : State) (commit : Checkpoint)
    (sub : Subnet) (prev : Checkpoint)
    (hk : env.caller_kind = .subnet)
    (hsub : st.get_subnet (SubnetID.new st.network_name env.caller) = some sub)
    (hid : sub.id = SubnetID.new st.network_name env.caller)
    (hact : sub.status = .Active)
    (hprev : sub.prev_checkpoint = some prev) :
    ((commit.data.epoch < prev.data.epoch ∨ commit.data.prev_check ≠ prev.cid) →
      Actor.commit_child_check env st commit = .fail .USR_ILLEGAL_ARGUMENT st) ∧
    ((Actor.commit_child_check env st commit).res = none →
      ∃ sub2, (Actor.commit_child_check env st commit).st.get_subnet
          (SubnetID.new st.network_name env.caller) = some sub2 ∧
        sub2.prev_checkpoint = some commit) := by
  have hchar0 := commitChildTx_of_some env st commit sub hsub hact
  rw [hprev] at hchar0
  have hchar : commitChildTx env st commit =
      (if prev.data.epoch > commit.data.epoch then .error .USR_ILLEGAL_ARGUMENT
       else if commit.data.prev_check ≠ prev.cid then .error .USR_ILLEGAL_ARGUMENT
       else commitChildRest env st commit sub) := hchar0
  clear hchar0
  constructor
  · intro hbad
    by_cases hca : env.caller = commit.data.source.subnet_actor
    · have htx : commitChildTx env st commit = .error .USR_ILLEGAL_ARGUMENT := by
        rw [hchar]
        rcases hbad with hb | hb
        · rw [if_pos hb]
        · by_cases he : prev.data.epoch > commit.data.epoch
          · rw [if_pos he]
          · rw [if_neg he, if_pos hb]
      simp [Actor.commit_child_check, hk, hca, htx, MRes.fail]
    · simp [Actor.commit_child_check, hk, hca, MRes.fail]
  · intro hres
    by_cases hca : env.caller = commit.data.source.subnet_actor
    · cases htx : commitChildTx env st commit with
      | error c =>
        have heq : Actor.commit_child_check env st commit = .fail c st := by
          simp [Actor.commit_child_check, hk, hca, htx, MRes.fail]
        rw [heq] at hres
        cases hres
      | ok out =>
        have hmeth : (Actor.commit_child_check env st commit).st = out.1 := by
          simp [Actor.commit_child_check, hk, hca, htx, MRes.okRes]
        have hrest : commitChildRest env st commit sub = .ok out := by
          rw [hchar] at htx
          by_cases he : prev.data.epoch > commit.data.epoch
          · rw [if_pos he] at htx
            cases htx
          · rw [if_neg he] at htx
            by_cases hc : commit.data.prev_check ≠ prev.cid
            · rw [if_pos hc] at htx
              cases htx
            · rw [if_neg hc] at htx
              exact htx
        obtain ⟨sub3, hlook, hp3⟩ := commitChildRest_prev env st commit sub out hrest
        rw [hid] at hlook
        exact ⟨sub3, by rw [hmeth]; exact hlook, hp3⟩
    · have heq : Actor.commit_child_check env st commit = .fail .USR_ILLEGAL_ARGUMENT st := by
        simp [Actor.commit_child_check, hk, hca, MRes.fail]
      rw [heq] at hres
      cases hres

/-- Witness for C6: committing a checkpoint whose epoch precedes the
previous checkpoint's epoch is rejected as an argument error. -/
theorem claim_c6_witness :
    Actor.commit_child_check
        { caller := 7, caller_kind := .subnet, value_received := 0, curr_epoch := 10,
          balance := 0, resolve_secp := fun _ => none, resolve_id := fun _ => none }
        { network_name := ⟨[0]⟩, total_subnets := 1, min_stake := 10,
          subnets := [(⟨[0, 7]⟩,
            { id := ⟨[0, 7]⟩, stake := 10, top_down_msgs := [], nonce := 0,
              circ_supply := 0, status := .Active,
              prev_checkpoint := some (Checkpoint.new ⟨[0, 7]⟩ 5) })],
          check_period := 10, checkpoints := [], nonce := 0,
          applied_bottomup_nonce := 0, applied_topdown_nonce := 0,
          bottomup_msg_meta := [], atomic_exec_registry := [] }
        (Checkpoint.new ⟨[0, 7]⟩ 1) =
      .fail .USR_ILLEGAL_ARGUMENT
        { network_name := ⟨[0]⟩, total_subnets := 1, min_stake := 10,
          subnets := [(⟨[0, 7]⟩,
            { id := ⟨[0, 7]⟩, stake := 10, top_down_msgs := [], nonce := 0,
              circ_supply := 0, status := .Active,
              prev_checkpoint := some (Checkpoint.new ⟨[0, 7]⟩ 5) })],
          check_period := 10, checkpoints := [], nonce := 0,
          applied_bottomup_nonce := 0, applied_topdown_nonce := 0,
          bottomup_msg_meta := [], atomic_exec_registry := [] } :=
  (claim_c6_commit_child_check _ _ _
      { id := ⟨[0, 7]⟩, stake := 10, top_down_msgs := [], nonce := 0,
        circ_supply := 0, status := .Active,
        prev_checkpoint := some (Checkpoint.new ⟨[0, 7]⟩ 5) }
      (Checkpoint.new ⟨[0, 7]⟩ 5)
      rfl (by decide) (by decide) rfl rfl).1 (Or.inl (by decide))

/-! ## Claim theorem: atomic-execution initialization (C8) -/

/-- The head-based uniformity scan of `init_atomic_exec` is equivalent to
pairwise sharing of `(method, to)` over the whole message list. -/
theorem any_diff_iff (m0 : StorableMsg) (rest : List StorableMsg) :
    ((m0 :: rest).any (fun m =>
        decide (m.method ≠ m0.method) || decide (m.mto ≠ m0.mto)) = true) ↔
      ¬ ∀ m1 ∈ m0 :: rest, ∀ m2 ∈ m0 :: rest,
          m1.method = m2.method ∧ m1.mto = m2.mto := by
  simp only [List.any_eq_true, Bool.or_eq_true, decide_eq_true_eq]
  constructor
  · rintro ⟨m, hm, hdiff⟩ hall
    rcases hdiff with hd | hd
    · exact hd (hall m hm m0 (List.mem_cons_self _ _)).1
    · exact hd (hall m hm m0 (List.mem_cons_self _ _)).2
  · intro hnall
    by_contra hno
    push_neg at hno
    apply hnall
    intro m1 h1 m2 h2
    have e1 := hno m1 h1
    have e2 := hno m2 h2
    exact ⟨e1.1.trans e2.1.symm, e1.2.trans e2.2.symm⟩

/-- Claim C8: under a signable caller and resolvable inputs,
`init_atomic_exec` fails — always with `USR_ILLEGAL_ARGUMENT` and without
touching the state — exactly when an execution already exists under the Cid
computed from the parameters, the message list is empty, there are fewer
than two inputs, the current network is not the left-fold common parent of
the input subnets, or the messages do not all share the same method and
`to` address; otherwise it persists the new execution with status
`Initialized` under that Cid and returns the Cid. -/
theorem claim_c8_init_atomic_exec (env : Env) (st : State) (params : AtomicExecParamsRaw)
    (params2 : AtomicExecParams)
    (hk : env.caller_kind = .signable)
    (hin : params.input_into_ids env.resolve_id = .ok params2) :
    ((Actor.init_atomic_exec env st params).res ≠ none ↔
      (st.get_atomic_exec params.cid ≠ none ∨
       params2.msgs.length = 0 ∨ params2.inputs.length < 2 ∨
       is_common_parent st.network_name params2.inputs = .ok false ∨
       ¬ ∀ m1 ∈ params2.msgs, ∀ m2 ∈ params2.msgs,
           m1.method = m2.method ∧ m1.mto = m2.mto)) ∧
    ((Actor.init_atomic_exec env st params).res ≠ none →
      Actor.init_atomic_exec env st params = .fail .USR_ILLEGAL_ARGUMENT st) ∧
    ((Actor.init_atomic_exec env st params).res = none →
      Actor.init_atomic_exec env st params =
        { res := none, st := st.set_atomic_exec params.cid (AtomicExec.new params2),
          sends := [], retCid := some params.cid }) := by
  have hmain :
      (initAtomicTx st params.cid params2 =
          .ok (st.set_atomic_exec params.cid (AtomicExec.new params2)) ∧
        ¬ (st.get_atomic_exec params.cid ≠ none ∨
           params2.msgs.length = 0 ∨ params2.inputs.length < 2 ∨
           is_common_parent st.network_name params2.inputs = .ok false ∨
           ¬ ∀ m1 ∈ params2.msgs, ∀ m2 ∈ params2.msgs,
               m1.method = m2.method ∧ m1.mto = m2.mto)) ∨
      (initAtomicTx st params.cid params2 = .error .USR_ILLEGAL_ARGUMENT ∧
        (st.get_atomic_exec params.cid ≠ none ∨
         params2.msgs.length = 0 ∨ params2.inputs.length < 2 ∨
         is_common_parent st.network_name params2.inputs = .ok false ∨
         ¬ ∀ m1 ∈ params2.msgs, ∀ m2 ∈ params2.msgs,
             m1.method = m2.method ∧ m1.mto = m2.mto)) := by
    cases hreg : st.get_atomic_exec params.cid with
    | some e =>
      refine Or.inr ⟨by simp [initAtomicTx, hreg], Or.inl (by simp [hreg])⟩
    | none =>
      by_cases hlen : params2.msgs.length = 0 ∨ params2.inputs.length < 2
      · refine Or.inr ⟨?_, ?_⟩
        · simp only [initAtomicTx, hreg]
          rw [if_pos hlen]
        · rcases hlen with hl | hl
          · exact Or.inr (Or.inl hl)
          · exact Or.inr (Or.inr (Or.inl hl))
      · cases hmsgs : params2.msgs with
        | nil =>
          exact absurd (Or.inl (by rw [hmsgs]; rfl)) hlen
        | cons m0 mrest =>
          cases hcp : is_common_parent st.network_name params2.inputs with
          | error e =>
            exfalso
            cases hinputs : params2.inputs with
            | nil =>
              refine hlen (Or.inr ?_)
              rw [hinputs]
              decide
            | cons k0 krest =>
              rw [hinputs] at hcp
              simp [is_common_parent] at hcp
          | ok b =>
            cases b with
            | false =>
              refine Or.inr ⟨?_, Or.inr (Or.inr (Or.inr (Or.inl rfl)))⟩
              simp [initAtomicTx, hreg, hlen, hcp]
            | true =>
              have htxA : initAtomicTx st params.cid params2 =
                  (match is_common_parent st.network_name params2.inputs with
                   | .error _ => .error .USR_ILLEGAL_ARGUMENT
                   | .ok cp =>
                     if ¬ cp then .error .USR_ILLEGAL_ARGUMENT
                     else
                       match params2.msgs with
                       | [] => .error .USR_ILLEGAL_ARGUMENT
                       | mh :: _ =>
                         if params2.msgs.any (fun m =>
                             decide (m.method ≠ mh.method) || decide (m.mto ≠ mh.mto))
                         then .error .USR_ILLEGAL_ARGUMENT
                         else .ok (st.set_atomic_exec params.cid (AtomicExec.new params2))) := by
                simp only [initAtomicTx, hreg]
                rw [if_neg hlen]
              rw [hcp] at htxA
              have htxB : initAtomicTx st params.cid params2 =
                  (if ¬ (true : Bool) then .error .USR_ILLEGAL_ARGUMENT
                   else
                     match params2.msgs with
                     | [] => .error .USR_ILLEGAL_ARGUMENT
                     | mh :: _ =>
                       if params2.msgs.any (fun m =>
                           decide (m.method ≠ mh.method) || decide (m.mto ≠ mh.mto))
                       then .error .USR_ILLEGAL_ARGUMENT
                       else .ok (st.set_atomic_exec params.cid (AtomicExec.new params2))) := htxA
              rw [if_neg (by simp)] at htxB
              rw [hmsgs] at htxB
              have htxC : initAtomicTx st params.cid params2 =
                  (if (m0 :: mrest).any (fun m =>
                      decide (m.method ≠ m0.method) || decide (m.mto ≠ m0.mto))
                   then .error .USR_ILLEGAL_ARGUMENT
                   else .ok (st.set_atomic_exec params.cid (AtomicExec.new params2))) := htxB
              by_cases hany : (m0 :: mrest).any (fun m =>
                  decide (m.method ≠ m0.method) || decide (m.mto ≠ m0.mto)) = true
              · refine Or.inr ⟨?_, Or.inr (Or.inr (Or.inr (Or.inr ?_)))⟩
                · rw [htxC, if_pos hany]
                · exact (any_diff_iff m0 mrest).mp hany
              · refine Or.inl ⟨?_, ?_⟩
                · rw [htxC, if_neg hany]
                · intro hc
                  rcases hc with hc | hc | hc | hc | hc
                  · exact hc rfl
                  · exact hlen (Or.inl (by rw [hmsgs]; exact hc))
                  · exact hlen (Or.inr hc)
                  · cases hc
                  · exact hc (not_not.mp (mt (any_diff_iff m0 mrest).mpr hany))
  have hwrap : Actor.init_atomic_exec env st params =
      (match initAtomicTx st params.cid params2 with
       | .error c => .fail c st
       | .ok st2 => { res := none, st := st2, sends := [], retCid := some params.cid }) := by
    simp [Actor.init_atomic_exec, hk, hin]
  rcases hmain with ⟨htx, hnc⟩ | ⟨htx, hc⟩
  · rw [htx] at hwrap
    refine ⟨?_, ?_, ?_⟩
    · constructor
      · intro hcontra
        exfalso
        apply hcontra
        rw [hwrap]
      · intro hcond
        exact absurd hcond hnc
    · intro h
      exfalso
      apply h
      rw [hwrap]
    · intro _
      exact hwrap
  · rw [htx] at hwrap
    refine ⟨?_, fun _ => hwrap, ?_⟩
    · constructor
      · intro _
        exact hc
      · intro _
        rw [hwrap]
        simp [MRes.fail]
    · intro h
      rw [hwrap] at h
      cases h

/-- Concrete message environment for the C8 witness. -/
def c8Env : Env :=
  { caller := 9, caller_kind := .signable, value_received := 0, curr_epoch := 0,
    balance := 0, resolve_secp := fun _ => none, resolve_id := fun n => some n }

/-- Concrete initial state for the C8 witness. -/
def c8State : State :=
  { network_name := ⟨[0]⟩, total_subnets := 0, min_stake := 10, subnets := [],
    check_period := 10, checkpoints := [], nonce := 0, applied_bottomup_nonce := 0,
    applied_topdown_nonce := 0, bottomup_msg_meta := [], atomic_exec_registry := [] }

/-- Concrete atomic-execution message for the C8 witness. -/
def c8Msg : StorableMsg :=
  { mfrom := .raw 11, mto := .raw 5, method := 2, params := .empty, value := 0, nonce := 0 }

/-- Concrete raw parameters for the C8 witness (two inputs whose subnets
are distinct children of the root). -/
def c8Params : AtomicExecParamsRaw :=
  { msgs := [c8Msg],
    inputs := [((⟨[0, 1]⟩, 11), { cid := 1, actor := 31 }),
               ((⟨[0, 2]⟩, 12), { cid := 2, actor := 32 })] }

/-- The C8 witness parameters after identity resolution. -/
def c8Resolved : AtomicExecParams :=
  { msgs := [c8Msg],
    inputs := [((⟨[0, 1]⟩, 11), { cid := 1, actor := 31 }),
               ((⟨[0, 2]⟩, 12), { cid := 2, actor := 32 })] }

/-- Witness for C8: a well-formed initialization persists the new
execution and returns its Cid. -/
theorem claim_c8_witness :
    Actor.init_atomic_exec c8Env c8State c8Params =
      { res := none,
        st := c8State.set_atomic_exec c8Params.cid (AtomicExec.new c8Resolved),
        sends := [], retCid := some c8Params.cid } :=
  (claim_c8_init_atomic_exec c8Env c8State c8Params c8Resolved rfl (by decide)).2.2 (by decide)

/-! ## Preservation lemmas over the whole method surface -/

theorem lookupA_mem [DecidableEq α] (l : List (α × β)) (k : α) (v : β)
    (h : lookupA l k = some v) : (k, v) ∈ l := by
  induction l with
  | nil => cases h
  | cons hd tl ih =>
    obtain ⟨a, b⟩ := hd
    rw [lookupA] at h
    by_cases he : a = k
    · rw [if_pos he] at h
      injection h with h2
      subst he
      subst h2
      exact List.mem_cons_self _ _
    · rw [if_neg he] at h
      exact List.mem_cons_of_mem _ (ih h)

theorem mem_setA [DecidableEq α] (l : List (α × β)) (k : α) (v : β) (p : α × β)
    (h : p ∈ setA l k v) : p ∈ l ∨ p = (k, v) := by
  induction l with
  | nil =>
    rw [setA] at h
    exact Or.inr (List.mem_singleton.mp h)
  | cons hd tl ih =>
    obtain ⟨a, b⟩ := hd
    rw [setA] at h
    by_cases he : a = k
    · rw [if_pos he] at h
      rcases List.mem_cons.mp h with h2 | h2
      · exact Or.inr h2
      · exact Or.inl (List.mem_cons_of_mem _ h2)
    · rw [if_neg he] at h
      rcases List.mem_cons.mp h with h2 | h2
      · exact Or.inl (h2 ▸ List.mem_cons_self _ _)
      · rcases ih h2 with h3 | h3
        · exact Or.inl (List.mem_cons_of_mem _ h3)
        · exact Or.inr h3

theorem mem_eraseA [DecidableEq α] (l : List (α × β)) (k : α) (p : α × β)
    (h : p ∈ eraseA l k) : p ∈ l := by
  induction l with
  | nil =>
    simp [eraseA] at h
  | cons hd tl ih =>
    obtain ⟨a, b⟩ := hd
    rw [eraseA] at h
    by_cases he : a = k
    · rw [if_pos he] at h
      exact List.mem_cons_of_mem _ (ih h)
    · rw [if_neg he] at h
      rcases List.mem_cons.mp h with h2 | h2
      · exact h2 ▸ List.mem_cons_self _ _
      · exact List.mem_cons_of_mem _ (ih h2)

/-- The registry invariant of C1: an `Active` subnet holds at least the
minimal stake. -/
def stakeInv (st : State) : Prop :=
  ∀ p ∈ st.subnets, p.2.status = .Active → st.min_stake ≤ p.2.stake

/-- Pointwise stake/status refinement of registries: every entry of the
second registry has an entry of the first with the same stake and status. -/
def subnetsLE (st1 st2 : State) : Prop :=
  ∀ p ∈ st2.subnets, ∃ q ∈ st1.subnets, p.2.stake = q.2.stake ∧ p.2.status = q.2.status

theorem subnetsLE_refl (st : State) : subnetsLE st st :=
  fun p hp => ⟨p, hp, rfl, rfl⟩

theorem subnetsLE_of_eq (st1 st2 : State) (h : st2.subnets = st1.subnets) :
    subnetsLE st1 st2 :=
  fun p hp => ⟨p, h ▸ hp, rfl, rfl⟩

theorem subnetsLE_trans (st1 st2 st3 : State) (h12 : subnetsLE st1 st2)
    (h23 : subnetsLE st2 st3) : subnetsLE st1 st3 := by
  intro p hp
  obtain ⟨q, hq, hs, hst⟩ := h23 p hp
  obtain ⟨r, hr, hs2, hst2⟩ := h12 q hq
  exact ⟨r, hr, hs.trans hs2, hst.trans hst2⟩

theorem stakeInv_of_LE (st1 st2 : State) (hm : st2.min_stake = st1.min_stake)
    (hle : subnetsLE st1 st2) (h : stakeInv st1) : stakeInv st2 := by
  intro p hp ha
  obtain ⟨q, hq, hs, hst⟩ := hle p hp
  rw [hm, hs]
  exact h q hq (hst.symm.trans ha)

/-- `commit_topdown_msg` keeps the minimal stake, the applied top-down
nonce and the network name, and only rewrites one registry entry without
touching its stake or status. -/
theorem commit_topdown_msg_ok (st : State) (msg : StorableMsg) (st' : State)
    (h : st.commit_topdown_msg msg = .ok st') :
    st'.min_stake = st.min_stake ∧
    st'.applied_topdown_nonce = st.applied_topdown_nonce ∧
    st'.network_name = st.network_name ∧
    subnetsLE st st' := by
  unfold State.commit_topdown_msg at h
  cases hto : msg.mto.subnet with
  | error e =>
    simp only [hto] at h
    cases h
  | ok sto =>
    simp only [hto] at h
    cases hdown : sto.down st.network_name with
    | none =>
      simp only [hdown] at h
      cases h
    | some shid =>
      simp only [hdown] at h
      cases hsub : st.get_subnet shid with
      | none =>
        simp only [hsub] at h
        cases h
      | some sub =>
        simp only [hsub] at h
        injection h with h3
        subst h3
        refine ⟨rfl, rfl, rfl, ?_⟩
        intro p hp
        rcases mem_setA _ _ _ _ hp with h4 | h4
        · exact ⟨p, h4, rfl, rfl⟩
        · exact ⟨(shid, sub), lookupA_mem _ _ _ hsub, by rw [h4], by rw [h4]⟩

/-- `commit_bottomup_msg` only changes the checkpoints and the bottom-up
nonce. -/
theorem commit_bottomup_msg_ok (st : State) (msg : StorableMsg) (epoch : Int) (st' : State)
    (h : st.commit_bottomup_msg msg epoch = .ok st') :
    ∃ cps, st' = { st with checkpoints := cps, nonce := st.nonce + 1 } := by
  unfold State.commit_bottomup_msg at h
  cases hto : msg.mto.subnet with
  | error e =>
    rw [hto] at h
    cases h
  | ok sto =>
    rw [hto] at h
    injection h with h2
    exact ⟨_, h2.symm⟩

/-- `bottomup_state_transition` only changes the applied bottom-up nonce. -/
theorem bottomup_state_transition_ok (st : State) (msg : StorableMsg) (st' : State)
    (h : st.bottomup_state_transition msg = .ok st') :
    st' = { st with applied_bottomup_nonce := msg.nonce } := by
  unfold State.bottomup_state_transition at h
  split at h
  · injection h with h2
    exact h2.symm
  · cases h

/-- `register_subnet` requires the collateral and inserts the fresh
`Active` subnet. -/
theorem register_subnet_ok (st : State) (shid : SubnetID) (value : Int) (st' : State)
    (h : st.register_subnet shid value = .ok st') :
    st.min_stake ≤ value ∧
    st' = { (st.flush_subnet
      { id := shid, stake := value, top_down_msgs := [], nonce := 0,
        circ_supply := 0, status := .Active, prev_checkpoint := none }) with
          total_subnets := st.total_subnets + 1 } := by
  unfold State.register_subnet at h
  split at h
  · cases h
  · injection h with h2
    constructor
    · omega
    · exact h2.symm

/-- `propagateGo` keeps the minimal stake, the applied top-down nonce and
the network name, and never changes the stake or status of a registry
entry. -/
theorem propagateGo_ok (abort : Bool) (output : RawParams)
    (inputs : List (HierarchicalId × LockedStateInfo)) (visited : List SubnetID)
    (st st' : State) (h : propagateGo abort output inputs visited st = .ok st') :
    st'.min_stake = st.min_stake ∧
    st'.applied_topdown_nonce = st.applied_topdown_nonce ∧
    st'.network_name = st.network_name ∧
    subnetsLE st st' := by
  induction inputs generalizing visited st with
  | nil =>
    simp only [propagateGo] at h
    injection h with h2
    subst h2
    exact ⟨rfl, rfl, rfl, subnetsLE_refl st⟩
  | cons kv rest ih =>
    obtain ⟨k, info⟩ := kv
    simp only [propagateGo] at h
    by_cases hv : k.1 ∈ visited
    · rw [if_pos hv] at h
      exact ih _ _ h
    · rw [if_neg hv] at h
      cases hcm : st.commit_topdown_msg
          { mfrom := .hier st.network_name SCA_ACTOR_ID, mto := .hier k.1 info.actor,
            method := if abort then 4 else 5, params := output, value := 0, nonce := 0 } with
      | error e =>
        rw [hcm] at h
        cases h
      | ok st2 =>
        rw [hcm] at h
        obtain ⟨hm1, ha1, hn1, hle1⟩ := commit_topdown_msg_ok st _ st2 hcm
        obtain ⟨hm2, ha2, hn2, hle2⟩ := ih _ _ h
        exact ⟨hm2.trans hm1, ha2.trans ha1, hn2.trans hn1,
          subnetsLE_trans _ _ _ hle1 hle2⟩

/-- `submit_atomic_exec` keeps the minimal stake, the applied top-down
nonce and the network name, and never changes the stake or status of a
registry entry. -/
theorem submit_atomic_exec_ok (st : State) (caller : Nat) (p : SubmitExecParams)
    (st' : State) (status : ExecStatus)
    (h : st.submit_atomic_exec caller p = .ok (st', status)) :
    st'.min_stake = st.min_stake ∧
    st'.applied_topdown_nonce = st.applied_topdown_nonce ∧
    st'.network_name = st.network_name ∧
    subnetsLE st st' := by
  unfold State.submit_atomic_exec at h
  cases hreg : st.get_atomic_exec p.cid with
  | none =>
    simp only [hreg] at h
    cases h
  | some exec =>
    simp only [hreg] at h
    cases hchk : atomic_exec_checks exec caller with
    | error e =>
      simp only [hchk] at h
      cases h
    | ok u =>
      simp only [hchk] at h
      by_cases hab : p.abort
      · rw [if_pos hab] at h
        cases hprop : st.propagate_exec_result { exec with status := ExecStatus.Aborted }
            .empty true with
        | error e =>
          simp only [hprop] at h
          cases h
        | ok st2 =>
          simp only [hprop] at h
          injection h with h2
          have h3 : st2.set_atomic_exec p.cid { exec with status := ExecStatus.Aborted } = st' :=
            congrArg Prod.fst h2
          obtain ⟨hm, ha, hn, hle⟩ := propagateGo_ok _ _ _ _ _ _ hprop
          rw [← h3]
          exact ⟨hm, ha, hn, hle⟩
      · rw [if_neg hab] at h
        split at h
        · cases h
        · split at h
          · cases h
          · split at h
            · cases hprop : st.propagate_exec_result
                  { exec with
                    submitted := setA exec.submitted caller (encodeList p.output),
                    status := ExecStatus.Success } (.bytes p.output) false with
              | error e =>
                rw [hprop] at h
                cases h
              | ok st2 =>
                rw [hprop] at h
                injection h with h2
                have h3 : st2.set_atomic_exec p.cid
                    { exec with
                      submitted := setA exec.submitted caller (encodeList p.output),
                      status := ExecStatus.Success } = st' :=
                  congrArg Prod.fst h2
                obtain ⟨hm, ha, hn, hle⟩ := propagateGo_ok _ _ _ _ _ _ hprop
                rw [← h3]
                exact ⟨hm, ha, hn, hle⟩
            · injection h with h2
              have h3 : st.set_atomic_exec p.cid
                  { exec with
                    submitted := setA exec.submitted caller (encodeList p.output) } = st' :=
                congrArg Prod.fst h2
              rw [← h3]
              exact ⟨rfl, rfl, rfl, subnetsLE_refl st⟩

/-- `run_cross_msg` never changes the minimal stake, the applied top-down
nonce or the network name, never changes the stake or status of a registry
entry, and emits no sends when it fails. -/
theorem run_cross_msg_shape (env : Env) (st : State) (msg : StorableMsg) :
    (run_cross_msg env st msg).st.min_stake = st.min_stake ∧
    (run_cross_msg env st msg).st.applied_topdown_nonce = st.applied_topdown_nonce ∧
    (run_cross_msg env st msg).st.network_name = st.network_name ∧
    subnetsLE st (run_cross_msg env st msg).st ∧
    ((run_cross_msg env st msg).res ≠ none → (run_cross_msg env st msg).sends = []) := by
  unfold run_cross_msg
  cases hraw : msg.mto.raw_addr with
  | error e =>
    simp only [hraw]
    exact ⟨rfl, rfl, rfl, subnetsLE_refl st, fun _ => rfl⟩
  | ok rto =>
    simp only [hraw]
    by_cases hsca : rto = SCA_ACTOR_ID
    · rw [if_pos hsca]
      by_cases hm : msg.method = 13
      · rw [if_pos hm]
        cases hp : msg.params with
        | empty =>
          simp only [hp]
          exact ⟨rfl, rfl, rfl, subnetsLE_refl st, fun _ => rfl⟩
        | bytes bs =>
          simp only [hp]
          exact ⟨rfl, rfl, rfl, subnetsLE_refl st, fun _ => rfl⟩
        | submitExec p =>
          simp only [hp]
          cases hfrom : msg.mfrom.raw_addr with
          | error e =>
            simp only [hfrom]
            exact ⟨rfl, rfl, rfl, subnetsLE_refl st, fun _ => rfl⟩
          | ok cfrom =>
            simp only [hfrom]
            cases hsub : st.submit_atomic_exec cfrom p with
            | error f =>
              simp only [hsub]
              exact ⟨rfl, rfl, rfl, subnetsLE_refl st, fun _ => rfl⟩
            | ok pr =>
              obtain ⟨st2, stat⟩ := pr
              simp only [hsub]
              obtain ⟨hm1, ha1, hn1, hle1⟩ := submit_atomic_exec_ok st cfrom p st2 stat hsub
              exact ⟨hm1, ha1, hn1, hle1, fun hne => absurd rfl hne⟩
      · rw [if_neg hm]
        exact ⟨rfl, rfl, rfl, subnetsLE_refl st, fun _ => rfl⟩
    · rw [if_neg hsca]
      exact ⟨rfl, rfl, rfl, subnetsLE_refl st, fun hne => absurd rfl hne⟩

/-- On success the top-down apply transaction increments the applied
top-down nonce by exactly one and keeps the stake accounting. -/
theorem applyTopdownTx_ok (st : State) (msg : StorableMsg) (sto : SubnetID) (st' : State)
    (h : applyTopdownTx st msg sto = .ok st') :
    st'.min_stake = st.min_stake ∧
    st'.applied_topdown_nonce = st.applied_topdown_nonce + 1 ∧
    st'.network_name = st.network_name ∧
    subnetsLE st st' := by
  unfold applyTopdownTx at h
  split at h
  · cases h
  · split at h
    · cases hcm : ({ st with applied_topdown_nonce := st.applied_topdown_nonce + 1 } :
          State).commit_topdown_msg msg with
      | error f =>
        rw [hcm] at h
        cases h
      | ok st3 =>
        rw [hcm] at h
        injection h with h2
        subst h2
        obtain ⟨hm1, ha1, hn1, hle1⟩ := commit_topdown_msg_ok _ msg st3 hcm
        refine ⟨hm1, ha1, hn1, ?_⟩
        intro p hp
        exact hle1 p hp
    · injection h with h2
      subst h2
      exact ⟨rfl, rfl, rfl, subnetsLE_refl st⟩

/-- On success the bottom-up apply transaction keeps the applied top-down
nonce and the stake accounting. -/
theorem applyBottomupTx_ok (st : State) (msg : StorableMsg) (sto : SubnetID) (st' : State)
    (h : applyBottomupTx st msg sto = .ok st') :
    st'.min_stake = st.min_stake ∧
    st'.applied_topdown_nonce = st.applied_topdown_nonce ∧
    st'.network_name = st.network_name ∧
    subnetsLE st st' := by
  unfold applyBottomupTx at h
  cases hbt : st.bottomup_state_transition msg with
  | error f =>
    rw [hbt] at h
    cases h
  | ok st2 =>
    simp only [hbt] at h
    have hst2 : st2 = { st with applied_bottomup_nonce := msg.nonce } :=
      bottomup_state_transition_ok st msg st2 hbt
    subst hst2
    split at h
    · cases hcm : ({ st with applied_bottomup_nonce := msg.nonce } :
          State).commit_topdown_msg msg with
      | error f =>
        rw [hcm] at h
        cases h
      | ok st3 =>
        rw [hcm] at h
        injection h with h2
        subst h2
        obtain ⟨hm1, ha1, hn1, hle1⟩ := commit_topdown_msg_ok _ msg st3 hcm
        exact ⟨hm1, ha1, hn1, fun p hp => hle1 p hp⟩
    · injection h with h2
      subst h2
      exact ⟨rfl, rfl, rfl, subnetsLE_refl st⟩

/-- `Subnet::add_stake` preserves the registry invariant: the flushed entry
is `Inactive` whenever its stake falls below the minimum. -/
theorem add_stake_entry_inv (sub : Subnet) (st : State) (value : Int)
    (hinv : stakeInv st) : stakeInv (sub.add_stake st value) := by
  intro p hp ha
  unfold Subnet.add_stake State.flush_subnet at hp ⊢
  simp only at hp ⊢
  by_cases hlt : sub.stake + value < st.min_stake
  · rw [if_pos hlt] at hp
    rcases mem_setA _ _ _ _ hp with h4 | h4
    · exact hinv p h4 ha
    · rw [h4] at ha
      cases ha
  · rw [if_neg hlt] at hp
    rcases mem_setA _ _ _ _ hp with h4 | h4
    · exact hinv p h4 ha
    · rw [h4]
      show st.min_stake ≤ sub.stake + value
      omega

/-- `commitChildRest` preserves the stake accounting: it only flushes the
window checkpoint and the child subnet with untouched stake and status. -/
theorem commitChildRest_ok (env : Env) (st : State) (commit : Checkpoint) (sub : Subnet)
    (out : State × Int) (k : SubnetID) (hmem : (k, sub) ∈ st.subnets)
    (h : commitChildRest env st commit sub = .ok out) :
    out.1.min_stake = st.min_stake ∧
    out.1.applied_topdown_nonce = st.applied_topdown_nonce ∧
    out.1.network_name = st.network_name ∧
    subnetsLE st out.1 := by
  unfold commitChildRest at h
  cases hap : st.apply_check_msgs sub commit with
  | error f =>
    rw [hap] at h
    cases h
  | ok tuple =>
    obtain ⟨burn, st2, sub2, ap⟩ := tuple
    rw [hap] at h
    obtain ⟨bm, n, cs, hst2, hsub2⟩ := applyCheckGo_shape st.network_name
      commit.data.cross_msgs (0, st, sub, []) (burn, st2, sub2, ap) hap
    simp only at hst2 hsub2
    subst hst2
    subst hsub2
    cases hadd : (({ st with bottomup_msg_meta := bm, nonce := n } :
        State).agg_child_msgmeta (st.get_window_checkpoint env.curr_epoch) ap).add_child_check
        commit with
    | error f =>
      simp only [hadd] at h
      cases h
    | ok ch3 =>
      simp only [hadd] at h
      injection h with h2
      have h3 : out.1 = (({ st with bottomup_msg_meta := bm, nonce := n } :
          State).flush_checkpoint ch3).flush_subnet
            { id := sub.id, stake := sub.stake, top_down_msgs := sub.top_down_msgs,
              nonce := sub.nonce, circ_supply := cs, status := sub.status,
              prev_checkpoint := some commit } := by
        rw [← h2]
      rw [h3]
      refine ⟨rfl, rfl, rfl, ?_⟩
      intro p hp
      unfold State.flush_subnet State.flush_checkpoint at hp
      simp only at hp
      rcases mem_setA _ _ _ _ hp with h4 | h4
      · exact ⟨p, h4, rfl, rfl⟩
      · exact ⟨(k, sub), hmem, by rw [h4], by rw [h4]⟩

/-- `commitChildTx` preserves the stake accounting. -/
theorem commitChildTx_ok (env : Env) (st : State) (commit : Checkpoint)
    (out : State × Int) (h : commitChildTx env st commit = .ok out) :
    out.1.min_stake = st.min_stake ∧
    out.1.applied_topdown_nonce = st.applied_topdown_nonce ∧
    out.1.network_name = st.network_name ∧
    subnetsLE st out.1 := by
  unfold commitChildTx at h
  cases hsub : st.get_subnet (SubnetID.new st.network_name env.caller) with
  | none =>
    simp only [hsub] at h
    cases h
  | some sub =>
    simp only [hsub] at h
    have hmem := lookupA_mem _ _ _ hsub
    split at h
    · cases h
    · split at h
      · split at h
        · cases h
        · split at h
          · cases h
          · exact commitChildRest_ok env st commit sub out _ hmem h
      · exact commitChildRest_ok env st commit sub out _ hmem h

/-- `initAtomicTx` only changes the atomic-execution registry. -/
theorem initAtomicTx_ok (st : State) (cid : Cid) (params2 : AtomicExecParams) (st' : State)
    (h : initAtomicTx st cid params2 = .ok st') :
    ∃ reg, st' = { st with atomic_exec_registry := reg } := by
  unfold initAtomicTx at h
  cases hreg : st.get_atomic_exec cid with
  | some e =>
    rw [hreg] at h
    cases h
  | none =>
    simp only [hreg] at h
    split at h
    · cases h
    · split at h
      · cases h
      · split at h
        · cases h
        · split at h
          · cases h
          · split at h
            · cases h
            · injection h with h2
              exact ⟨_, h2.symm⟩

theorem stepM_Register (env : Env) (st : State) :
    stepM MethodCall.Register env st = Actor.register env st := rfl

theorem stepM_AddStake (env : Env) (st : State) :
    stepM MethodCall.AddStake env st = Actor.add_stake env st := rfl

theorem stepM_ReleaseStake (p : FundParams) (env : Env) (st : State) :
    stepM (MethodCall.ReleaseStake p) env st = Actor.release_stake env st p := rfl

theorem stepM_Kill (env : Env) (st : State) :
    stepM MethodCall.Kill env st = Actor.kill env st := rfl

theorem stepM_Commit (p : Checkpoint) (env : Env) (st : State) :
    stepM (MethodCall.CommitChildCheckpoint p) env st = Actor.commit_child_check env st p := rfl

theorem stepM_Fund (p : SubnetID) (env : Env) (st : State) :
    stepM (MethodCall.Fund p) env st = Actor.fund env st p := rfl

theorem stepM_Release (env : Env) (st : State) :
    stepM MethodCall.Release env st = Actor.release env st := rfl

theorem stepM_SendCross (p : CrossMsgParams) (env : Env) (st : State) :
    stepM (MethodCall.SendCross p) env st = Actor.send_cross env st p := rfl

theorem stepM_ApplyMessage (p : StorableMsg) (env : Env) (st : State) :
    stepM (MethodCall.ApplyMessage p) env st = Actor.apply_msg env st p := rfl

theorem stepM_InitAtomicExec (p : AtomicExecParamsRaw) (env : Env) (st : State) :
    stepM (MethodCall.InitAtomicExec p) env st = Actor.init_atomic_exec env st p := rfl

theorem stepM_AbortAtomicExec (p : AbortExecParams) (env : Env) (st : State) :
    stepM (MethodCall.AbortAtomicExec p) env st = Actor.abort_atomic_exec env st p := rfl

/-- Master preservation lemma over the whole method surface: every method
call keeps `min_stake`, never decreases `applied_topdown_nonce`, and
preserves the registry invariant of C1. -/
theorem stepM_master (op : MethodCall) (env : Env) (st : State) :
    (stepM op env st).st.min_stake = st.min_stake ∧
    st.applied_topdown_nonce ≤ (stepM op env st).st.applied_topdown_nonce ∧
    (stakeInv st → stakeInv (stepM op env st).st) := by
  cases op with
  | Register =>
    rw [stepM_Register]
    unfold Actor.register
    by_cases hk : env.caller_kind ≠ CallerKind.subnet
    · rw [if_pos hk]
      exact ⟨rfl, le_refl _, fun h => h⟩
    · rw [if_neg hk]
      cases hsub : st.get_subnet (SubnetID.new st.network_name env.caller) with
      | some sub =>
        simp only [hsub]
        exact ⟨rfl, le_refl _, fun h => h⟩
      | none =>
        simp only [hsub]
        cases hreg : st.register_subnet (SubnetID.new st.network_name env.caller)
            env.value_received with
        | error f =>
          simp only [hreg]
          exact ⟨rfl, le_refl _, fun h => h⟩
        | ok st2 =>
          simp only [hreg]
          obtain ⟨hval, hst2⟩ := register_subnet_ok _ _ _ _ hreg
          subst hst2
          refine ⟨rfl, le_refl _, ?_⟩
          intro hinv p hp ha
          simp only [State.flush_subnet] at hp
          rcases mem_setA _ _ _ _ hp with h4 | h4
          · exact hinv p h4 ha
          · rw [h4]
            show st.min_stake ≤ env.value_received
            exact hval
  | AddStake =>
    rw [stepM_AddStake]
    unfold Actor.add_stake
    by_cases hk : env.caller_kind ≠ CallerKind.subnet
    · rw [if_pos hk]
      exact ⟨rfl, le_refl _, fun h => h⟩
    · rw [if_neg hk]
      by_cases hv : env.value_received ≤ 0
      · rw [if_pos hv]
        exact ⟨rfl, le_refl _, fun h => h⟩
      · rw [if_neg hv]
        cases hsub : st.get_subnet (SubnetID.new st.network_name env.caller) with
        | some sub =>
          simp only [hsub]
          exact ⟨rfl, le_refl _, fun hinv => add_stake_entry_inv sub st env.value_received hinv⟩
        | none =>
          simp only [hsub]
          exact ⟨rfl, le_refl _, fun h => h⟩
  | ReleaseStake params =>
    rw [stepM_ReleaseStake]
    unfold Actor.release_stake
    by_cases hk : env.caller_kind ≠ CallerKind.subnet
    · rw [if_pos hk]
      exact ⟨rfl, le_refl _, fun h => h⟩
    · rw [if_neg hk]
      by_cases hv : params.value ≤ 0
      · rw [if_pos hv]
        exact ⟨rfl, le_refl _, fun h => h⟩
      · rw [if_neg hv]
        cases hsub : st.get_subnet (SubnetID.new st.network_name env.caller) with
        | none =>
          simp only [hsub]
          exact ⟨rfl, le_refl _, fun h => h⟩
        | some sub =>
          simp only [hsub]
          by_cases hstk : sub.stake < params.value
          · rw [if_pos hstk]
            exact ⟨rfl, le_refl _, fun h => h⟩
          · rw [if_neg hstk]
            by_cases hb : env.balance < params.value
            · rw [if_pos hb]
              exact ⟨rfl, le_refl _, fun h => h⟩
            · rw [if_neg hb]
              exact ⟨rfl, le_refl _, fun hinv => add_stake_entry_inv sub st (-params.value) hinv⟩
  | Kill =>
    rw [stepM_Kill]
    unfold Actor.kill
    by_cases hk : env.caller_kind ≠ CallerKind.subnet
    · rw [if_pos hk]
      exact ⟨rfl, le_refl _, fun h => h⟩
    · rw [if_neg hk]
      cases hsub : st.get_subnet (SubnetID.new st.network_name env.caller) with
      | none =>
        simp only [hsub]
        exact ⟨rfl, le_refl _, fun h => h⟩
      | some sub =>
        simp only [hsub]
        by_cases hb : env.balance < sub.stake
        · rw [if_pos hb]
          exact ⟨rfl, le_refl _, fun h => h⟩
        · rw [if_neg hb]
          by_cases hcs : 0 < sub.circ_supply
          · rw [if_pos hcs]
            exact ⟨rfl, le_refl _, fun h => h⟩
          · rw [if_neg hcs]
            refine ⟨rfl, le_refl _, ?_⟩
            intro hinv p hp ha
            exact hinv p (mem_eraseA _ _ _ hp) ha
  | CommitChildCheckpoint commit =>
    rw [stepM_Commit]
    unfold Actor.commit_child_check
    by_cases hk : env.caller_kind ≠ CallerKind.subnet
    · rw [if_pos hk]
      exact ⟨rfl, le_refl _, fun h => h⟩
    · rw [if_neg hk]
      by_cases hca : env.caller ≠ commit.data.source.subnet_actor
      · rw [if_pos hca]
        exact ⟨rfl, le_refl _, fun h => h⟩
      · rw [if_neg hca]
        cases htx : commitChildTx env st commit with
        | error c =>
          simp only [htx]
          exact ⟨rfl, le_refl _, fun h => h⟩
        | ok out =>
          simp only [htx]
          obtain ⟨hm, ha, hn, hle⟩ := commitChildTx_ok env st commit out htx
          exact ⟨hm, le_of_eq ha.symm, fun hinv => stakeInv_of_LE st out.1 hm hle hinv⟩
  | Fund params =>
    rw [stepM_Fund]
    unfold Actor.fund
    by_cases hk : env.caller_kind ≠ CallerKind.signable
    · rw [if_pos hk]
      exact ⟨rfl, le_refl _, fun h => h⟩
    · rw [if_neg hk]
      by_cases hv : env.value_received ≤ 0
      · rw [if_pos hv]
        exact ⟨rfl, le_refl _, fun h => h⟩
      · rw [if_neg hv]
        cases hres : env.resolve_secp env.caller with
        | none =>
          simp only [hres]
          exact ⟨rfl, le_refl _, fun h => h⟩
        | some sig =>
          simp only [hres]
          cases hmsg : StorableMsg.new_fund_msg params sig env.value_received with
          | error e =>
            simp only [hmsg]
            exact ⟨rfl, le_refl _, fun h => h⟩
          | ok f_msg =>
            simp only [hmsg]
            cases hcm : st.commit_topdown_msg f_msg with
            | error f =>
              simp only [hcm]
              exact ⟨rfl, le_refl _, fun h => h⟩
            | ok st2 =>
              simp only [hcm]
              obtain ⟨hm, ha, hn, hle⟩ := commit_topdown_msg_ok st f_msg st2 hcm
              exact ⟨hm, le_of_eq ha.symm, fun hinv => stakeInv_of_LE st st2 hm hle hinv⟩
  | Release =>
    rw [stepM_Release]
    unfold Actor.release
    by_cases hk : env.caller_kind ≠ CallerKind.signable
    · rw [if_pos hk]
      exact ⟨rfl, le_refl _, fun h => h⟩
    · rw [if_neg hk]
      by_cases hv : env.value_received ≤ 0
      · rw [if_pos hv]
        exact ⟨rfl, le_refl _, fun h => h⟩
      · rw [if_neg hv]
        cases hres : env.resolve_secp env.caller with
        | none =>
          simp only [hres]
          exact ⟨rfl, le_refl _, fun h => h⟩
        | some sig =>
          simp only [hres]
          cases hmsg : StorableMsg.new_release_msg st.network_name sig env.value_received
              st.nonce with
          | error e =>
            exact ⟨rfl, le_refl _, fun h => h⟩
          | ok r_msg =>
            split
            · exact ⟨rfl, le_refl _, fun h => h⟩
            · rename_i r2 hr2
              injection hr2 with hr2
              subst hr2
              split
              · exact ⟨rfl, le_refl _, fun h => h⟩
              · rename_i st2 hcm
                obtain ⟨cps, hst2⟩ := commit_bottomup_msg_ok st r_msg env.curr_epoch st2 hcm
                subst hst2
                refine ⟨rfl, le_refl _, ?_⟩
                intro hinv p hp ha
                exact hinv p hp ha
  | SendCross params =>
    rw [stepM_SendCross]
    unfold Actor.send_cross
    by_cases hk : env.caller_kind ≠ CallerKind.signable
    · rw [if_pos hk]
      exact ⟨rfl, le_refl _, fun h => h⟩
    · rw [if_neg hk]
      by_cases hd : params.destination = (⟨[]⟩ : SubnetID)
      · rw [if_pos hd]
        exact ⟨rfl, le_refl _, fun h => h⟩
      · rw [if_neg hd]
        cases hres : env.resolve_secp env.caller with
        | none =>
          simp only [hres]
          exact ⟨rfl, le_refl _, fun h => h⟩
        | some sig =>
          simp only [hres]
          by_cases hd2 : params.destination = st.network_name
          · rw [if_pos hd2]
            exact ⟨rfl, le_refl _, fun h => h⟩
          · rw [if_neg hd2]
            cases hto : params.msg.mto with
            | hier s a =>
              simp only [hto]
              exact ⟨rfl, le_refl _, fun h => h⟩
            | raw rawTo =>
              simp only [hto]
              cases hsc : st.send_cross { params.msg with
                  mto := .hier params.destination rawTo,
                  mfrom := .hier st.network_name sig } env.curr_epoch with
              | error f =>
                simp only [hsc]
                exact ⟨rfl, le_refl _, fun h => h⟩
              | ok pr =>
                obtain ⟨st2, tp⟩ := pr
                simp only [hsc]
                unfold State.send_cross at hsc
                cases hht : ({ params.msg with
                    mto := Address.hier params.destination rawTo,
                    mfrom := Address.hier st.network_name sig } : StorableMsg).hc_type with
                | error e =>
                  rw [hht] at hsc
                  cases hsc
                | ok t =>
                  rw [hht] at hsc
                  cases t with
                  | Unknown =>
                    cases hsc
                  | BottomUp =>
                    revert hsc
                    cases hcm : st.commit_bottomup_msg { params.msg with
                        mto := Address.hier params.destination rawTo,
                        mfrom := Address.hier st.network_name sig } env.curr_epoch with
                    | error e =>
                      intro hsc
                      cases hsc
                    | ok st3 =>
                      intro hsc
                      injection hsc with h2
                      have h3 : st3 = st2 := congrArg Prod.fst h2
                      subst h3
                      obtain ⟨cps, hst2⟩ := commit_bottomup_msg_ok st _ env.curr_epoch st3 hcm
                      subst hst2
                      exact ⟨rfl, le_refl _, fun hinv p hp ha => hinv p hp ha⟩
                  | TopDown =>
                    revert hsc
                    cases hcm : st.commit_topdown_msg { params.msg with
                        mto := Address.hier params.destination rawTo,
                        mfrom := Address.hier st.network_name sig } with
                    | error e =>
                      intro hsc
                      cases hsc
                    | ok st3 =>
                      intro hsc
                      injection hsc with h2
                      have h3 : st3 = st2 := congrArg Prod.fst h2
                      subst h3
                      obtain ⟨hm, ha, hn, hle⟩ := commit_topdown_msg_ok st _ st3 hcm
                      exact ⟨hm, le_of_eq ha.symm, fun hinv => stakeInv_of_LE st st3 hm hle hinv⟩
  | ApplyMessage msg =>
    rw [stepM_ApplyMessage]
    unfold Actor.apply_msg
    by_cases hc : env.caller ≠ SYSTEM_ACTOR_ID
    · rw [if_pos hc]
      exact ⟨rfl, le_refl _, fun h => h⟩
    · rw [if_neg hc]
      cases hto : msg.mto.subnet with
      | error e =>
        simp only [hto]
        exact ⟨rfl, le_refl _, fun h => h⟩
      | ok sto =>
        simp only [hto]
        cases hat : msg.apply_type st.network_name with
        | error e =>
          simp only [hat]
          exact ⟨rfl, le_refl _, fun h => h⟩
        | ok t =>
          cases t with
          | Unknown =>
            simp only [hat]
            exact ⟨rfl, le_refl _, fun h => h⟩
          | BottomUp =>
            simp only [hat]
            cases hbt : applyBottomupTx st msg sto with
            | error c =>
              simp only [hbt]
              exact ⟨rfl, le_refl _, fun h => h⟩
            | ok st2 =>
              simp only [hbt]
              obtain ⟨hm, ha, hn, hle⟩ := applyBottomupTx_ok st msg sto st2 hbt
              by_cases hnet : sto = st.network_name
              · rw [if_pos hnet]
                obtain ⟨hm2, ha2, hn2, hle2, _⟩ := run_cross_msg_shape env st2 msg
                refine ⟨hm2.trans hm, ?_, ?_⟩
                · rw [ha2, ha]
                · intro hinv
                  exact stakeInv_of_LE st _ (hm2.trans hm)
                    (subnetsLE_trans _ _ _ hle hle2) hinv
              · rw [if_neg hnet]
                exact ⟨hm, le_of_eq ha.symm,
                  fun hinv => stakeInv_of_LE st st2 hm hle hinv⟩
          | TopDown =>
            simp only [hat]
            cases htd : applyTopdownTx st msg sto with
            | error c =>
              exact ⟨rfl, le_refl _, fun h => h⟩
            | ok st2 =>
              simp only [htd]
              obtain ⟨hm, ha, hn, hle⟩ := applyTopdownTx_ok st msg sto st2 htd
              by_cases hnet : sto = st.network_name
              · rw [if_pos hnet]
                obtain ⟨hm2, ha2, hn2, hle2, _⟩ := run_cross_msg_shape env st2 msg
                refine ⟨hm2.trans hm, ?_, ?_⟩
                · rw [ha2, ha]
                  omega
                · intro hinv
                  exact stakeInv_of_LE st _ (hm2.trans hm)
                    (subnetsLE_trans _ _ _ hle hle2) hinv
              · rw [if_neg hnet]
                refine ⟨hm, ?_, fun hinv => stakeInv_of_LE st st2 hm hle hinv⟩
                show st.applied_topdown_nonce ≤ st2.applied_topdown_nonce
                omega
  | InitAtomicExec params =>
    rw [stepM_InitAtomicExec]
    unfold Actor.init_atomic_exec
    by_cases hk : env.caller_kind ≠ CallerKind.signable
    · rw [if_pos hk]
      exact ⟨rfl, le_refl _, fun h => h⟩
    · rw [if_neg hk]
      cases hin : params.input_into_ids env.resolve_id with
      | error e =>
        simp only [hin]
        exact ⟨rfl, le_refl _, fun h => h⟩
      | ok params2 =>
        simp only [hin]
        cases htx : initAtomicTx st params.cid params2 with
        | error c =>
          simp only [htx]
          exact ⟨rfl, le_refl _, fun h => h⟩
        | ok st2 =>
          simp only [htx]
          obtain ⟨reg, hst2⟩ := initAtomicTx_ok st params.cid params2 st2 htx
          subst hst2
          exact ⟨rfl, le_refl _, fun hinv p hp ha => hinv p hp ha⟩
  | AbortAtomicExec params =>
    rw [stepM_AbortAtomicExec]
    unfold Actor.abort_atomic_exec
    by_cases hk : env.caller_kind ≠ CallerKind.signable
    · rw [if_pos hk]
      exact ⟨rfl, le_refl _, fun h => h⟩
    · rw [if_neg hk]
      cases hreg : st.get_atomic_exec params.exec_cid with
      | none =>
        simp only [hreg]
        exact ⟨rfl, le_refl _, fun h => h⟩
      | some exec =>
        simp only [hreg]
        cases hchk : atomic_exec_checks exec env.caller with
        | error f =>
          simp only [hchk]
          exact ⟨rfl, le_refl _, fun h => h⟩
        | ok u =>
          simp only [hchk]
          cases hprop : st.propagate_exec_result { exec with status := ExecStatus.Aborted }
              .empty true with
          | error f =>
            simp only [hprop]
            exact ⟨rfl, le_refl _, fun h => h⟩
          | ok st2 =>
            simp only [hprop]
            obtain ⟨hm, ha, hn, hle⟩ := propagateGo_ok _ _ _ _ _ _ hprop
            exact ⟨hm, le_of_eq ha.symm, fun hinv => stakeInv_of_LE st _ hm
              (fun p hp => hle p hp) hinv⟩

/-- Sequence-level preservation: along any sequence of method invocations
`min_stake` is constant, `applied_topdown_nonce` is monotone and the stake
invariant is preserved. -/
theorem runSeq_master (calls : List (MethodCall × Env)) (st : State) :
    (runSeq st calls).min_stake = st.min_stake ∧
    st.applied_topdown_nonce ≤ (runSeq st calls).applied_topdown_nonce ∧
    (stakeInv st → stakeInv (runSeq st calls)) := by
  induction calls generalizing st with
  | nil => exact ⟨rfl, le_refl _, fun h => h⟩
  | cons c rest ih =>
    obtain ⟨m, env⟩ := c
    obtain ⟨hm1, ha1, hi1⟩ := stepM_master m env st
    obtain ⟨hm2, ha2, hi2⟩ := ih (stepM m env st).st
    exact ⟨hm2.trans hm1, ha1.trans ha2, fun h => hi2 (hi1 h)⟩

/-! ## Claim C1: stake/status invariant -/

/-- Environment of the C1 counterexample register call: subnet actor 7
registers with exactly the minimal stake. -/
def c1EnvReg : Env :=
  { caller := 7, caller_kind := .subnet, value_received := 10, curr_epoch := 0,
    balance := 100, resolve_secp := fun _ => none, resolve_id := fun n => some n }

/-- Environment of the C1 counterexample release-stake call. -/
def c1EnvRel : Env := { c1EnvReg with value_received := 0 }

/-- Environment of the C1 counterexample add-stake call restoring the stake. -/
def c1EnvAdd : Env := { c1EnvReg with value_received := 5 }

/-- Initial state of the C1 counterexample: empty registry, minimal stake 10. -/
def c1State0 : State :=
  { network_name := ⟨[0]⟩, total_subnets := 0, min_stake := 10, subnets := [],
    check_period := 10, checkpoints := [], nonce := 0, applied_bottomup_nonce := 0,
    applied_topdown_nonce := 0, bottomup_msg_meta := [], atomic_exec_registry := [] }

/-- Final state of the C1 counterexample run: register with `min_stake`,
release half of it, then add it back. -/
def c1StateFinal : State :=
  runSeq c1State0
    [(.Register, c1EnvReg), (.ReleaseStake ⟨5⟩, c1EnvRel), (.AddStake, c1EnvAdd)]

/-- Counterexample to C1: after `register(10)`, `release_stake(5)` (the
subnet becomes Inactive) and `add_stake(5)` the stake is back at
`min_stake`, yet the status is still `Inactive` — `Subnet::add_stake`
never reactivates, refuting both the claimed `Active ⇔ stake ≥ min_stake`
equivalence and the reactivation scenario. -/
theorem claim_c1_counterexample :
    (c1StateFinal.get_subnet (SubnetID.new c1State0.network_name 7)).map Subnet.stake =
      some c1StateFinal.min_stake ∧
    (c1StateFinal.get_subnet (SubnetID.new c1State0.network_name 7)).map Subnet.status =
      some Status.Inactive := by
  decide

/-- Claim C1 (corrected): along any sequence of method invocations the
forward direction of the spec's equivalence is an invariant — every
`Active` registry entry holds at least `min_stake` — but the backward
direction fails: the registry entry written by `Subnet::add_stake` keeps
its previous status whenever the new stake is at least `min_stake`, and is
set to `Inactive` otherwise, so a deactivated subnet is never reactivated
by `add_stake`. -/
theorem claim_c1_stake_activation (calls : List (MethodCall × Env)) (st : State)
    (h : stakeInv st) :
    stakeInv (runSeq st calls) ∧
    (∀ (sub : Subnet) (st2 : State) (value : Int),
      lookupA (sub.add_stake st2 value).subnets sub.id =
        some (if sub.stake + value < st2.min_stake
              then { sub with stake := sub.stake + value, status := Status.Inactive }
              else { sub with stake := sub.stake + value })) := by
  refine ⟨(runSeq_master calls st).2.2 h, ?_⟩
  intro sub st2 value
  simp only [Subnet.add_stake, State.flush_subnet]
  by_cases hlt : sub.stake + value < st2.min_stake
  · rw [if_pos hlt]
    exact lookupA_setA_self st2.subnets sub.id _
  · rw [if_neg hlt]
    exact lookupA_setA_self st2.subnets sub.id _

/-- Witness for C1 at the concrete empty-registry state. -/
theorem claim_c1_stake_activation_witness :
    stakeInv c1State0 ∧
    (stakeInv (runSeq c1State0 [(MethodCall.Register, c1EnvReg)]) ∧
     (∀ (sub : Subnet) (st2 : State) (value : Int),
       lookupA (sub.add_stake st2 value).subnets sub.id =
         some (if sub.stake + value < st2.min_stake
               then { sub with stake := sub.stake + value, status := Status.Inactive }
               else { sub with stake := sub.stake + value }))) :=
  ⟨(fun p hp => nomatch hp),
   claim_c1_stake_activation [(MethodCall.Register, c1EnvReg)] c1State0
     (fun p hp => nomatch hp)⟩

/-! ## Claim C2: side effects of failing calls -/

/-- Failure residue of every method: either the call succeeded, or —
`Release` leaves the state unchanged but may already have issued the burn
send, `ApplyMessage` may already have issued the reward mint send, and
every other method leaves the state unchanged with no sends. -/
theorem stepM_failure_shape (op : MethodCall) (env : Env) (st : State) :
    (stepM op env st).res = none ∨
    (match op with
     | MethodCall.Release =>
         (stepM op env st).st = st ∧
         ((stepM op env st).sends = [] ∨
          (stepM op env st).sends =
            [{ dest := BURNT_FUNDS_ACTOR_ID, method := METHOD_SEND,
               value := env.value_received }])
     | MethodCall.ApplyMessage _ =>
         (stepM op env st).sends = [] ∨
         (stepM op env st).sends =
           [{ dest := REWARD_ACTOR_ID, method := EXTERNAL_FUNDING_METHOD, value := 0 }]
     | _ => (stepM op env st).st = st ∧ (stepM op env st).sends = []) := by
  cases op with
  | Register =>
    simp only [stepM]
    unfold Actor.register
    by_cases hk : env.caller_kind ≠ CallerKind.subnet
    · rw [if_pos hk]
      exact Or.inr ⟨rfl, rfl⟩
    · rw [if_neg hk]
      simp only []
      cases hsub : st.get_subnet (SubnetID.new st.network_name env.caller) with
      | some sub => exact Or.inr ⟨rfl, rfl⟩
      | none =>
        simp only [hsub]
        cases hreg : st.register_subnet (SubnetID.new st.network_name env.caller)
            env.value_received with
        | error f => exact Or.inr ⟨rfl, rfl⟩
        | ok st2 => exact Or.inl rfl
  | AddStake =>
    simp only [stepM]
    unfold Actor.add_stake
    by_cases hk : env.caller_kind ≠ CallerKind.subnet
    · rw [if_pos hk]
      exact Or.inr ⟨rfl, rfl⟩
    · rw [if_neg hk]
      by_cases hv : env.value_received ≤ 0
      · rw [if_pos hv]
        exact Or.inr ⟨rfl, rfl⟩
      · rw [if_neg hv]
        simp only []
        cases hsub : st.get_subnet (SubnetID.new st.network_name env.caller) with
        | some sub => exact Or.inl rfl
        | none => exact Or.inr ⟨rfl, rfl⟩
  | ReleaseStake params =>
    simp only [stepM]
    unfold Actor.release_stake
    by_cases hk : env.caller_kind ≠ CallerKind.subnet
    · rw [if_pos hk]
      exact Or.inr ⟨rfl, rfl⟩
    · rw [if_neg hk]
      by_cases hv : params.value ≤ 0
      · rw [if_pos hv]
        exact Or.inr ⟨rfl, rfl⟩
      · rw [if_neg hv]
        simp only []
        cases hsub : st.get_subnet (SubnetID.new st.network_name env.caller) with
        | none => exact Or.inr ⟨rfl, rfl⟩
        | some sub =>
          simp only [hsub]
          by_cases hstk : sub.stake < params.value
          · rw [if_pos hstk]
            exact Or.inr ⟨rfl, rfl⟩
          · rw [if_neg hstk]
            by_cases hb : env.balance < params.value
            · rw [if_pos hb]
              exact Or.inr ⟨rfl, rfl⟩
            · rw [if_neg hb]
              exact Or.inl rfl
  | Kill =>
    simp only [stepM]
    unfold Actor.kill
    by_cases hk : env.caller_kind ≠ CallerKind.subnet
    · rw [if_pos hk]
      exact Or.inr ⟨rfl, rfl⟩
    · rw [if_neg hk]
      simp only []
      cases hsub : st.get_subnet (SubnetID.new st.network_name env.caller) with
      | none => exact Or.inr ⟨rfl, rfl⟩
      | some sub =>
        simp only [hsub]
        by_cases hb : env.balance < sub.stake
        · rw [if_pos hb]
          exact Or.inr ⟨rfl, rfl⟩
        · rw [if_neg hb]
          by_cases hcs : 0 < sub.circ_supply
          · rw [if_pos hcs]
            exact Or.inr ⟨rfl, rfl⟩
          · rw [if_neg hcs]
            exact Or.inl rfl
  | CommitChildCheckpoint commit =>
    simp only [stepM]
    unfold Actor.commit_child_check
    by_cases hk : env.caller_kind ≠ CallerKind.subnet
    · rw [if_pos hk]
      exact Or.inr ⟨rfl, rfl⟩
    · rw [if_neg hk]
      by_cases hca : env.caller ≠ commit.data.source.subnet_actor
      · rw [if_pos hca]
        exact Or.inr ⟨rfl, rfl⟩
      · rw [if_neg hca]
        cases htx : commitChildTx env st commit with
        | error c => exact Or.inr ⟨rfl, rfl⟩
        | ok out =>
          obtain ⟨st2, burn⟩ := out
          exact Or.inl rfl
  | Fund params =>
    simp only [stepM]
    unfold Actor.fund
    by_cases hk : env.caller_kind ≠ CallerKind.signable
    · rw [if_pos hk]
      exact Or.inr ⟨rfl, rfl⟩
    · rw [if_neg hk]
      by_cases hv : env.value_received ≤ 0
      · rw [if_pos hv]
        exact Or.inr ⟨rfl, rfl⟩
      · rw [if_neg hv]
        cases hres : env.resolve_secp env.caller with
        | none => exact Or.inr ⟨rfl, rfl⟩
        | some sig =>
          simp only [hres]
          cases hmsg : StorableMsg.new_fund_msg params sig env.value_received with
          | error e => exact Or.inr ⟨rfl, rfl⟩
          | ok f_msg =>
            simp only [hmsg]
            cases hcm : st.commit_topdown_msg f_msg with
            | error f => exact Or.inr ⟨rfl, rfl⟩
            | ok st2 => exact Or.inl rfl
  | Release =>
    simp only [stepM]
    unfold Actor.release
    by_cases hk : env.caller_kind ≠ CallerKind.signable
    · rw [if_pos hk]
      exact Or.inr ⟨rfl, Or.inl rfl⟩
    · rw [if_neg hk]
      by_cases hv : env.value_received ≤ 0
      · rw [if_pos hv]
        exact Or.inr ⟨rfl, Or.inl rfl⟩
      · rw [if_neg hv]
        cases hres : env.resolve_secp env.caller with
        | none => exact Or.inr ⟨rfl, Or.inl rfl⟩
        | some sig =>
          simp only [hres]
          cases hmsg : StorableMsg.new_release_msg st.network_name sig env.value_received
              st.nonce with
          | error e => exact Or.inr ⟨rfl, Or.inr rfl⟩
          | ok r_msg =>
            split
            · exact Or.inr ⟨rfl, Or.inr rfl⟩
            · rename_i r2 hr2
              injection hr2 with hr2
              subst hr2
              split
              · exact Or.inr ⟨rfl, Or.inr rfl⟩
              · exact Or.inl rfl
  | SendCross params =>
    simp only [stepM]
    unfold Actor.send_cross
    by_cases hk : env.caller_kind ≠ CallerKind.signable
    · rw [if_pos hk]
      exact Or.inr ⟨rfl, rfl⟩
    · rw [if_neg hk]
      by_cases hd : params.destination = (⟨[]⟩ : SubnetID)
      · rw [if_pos hd]
        exact Or.inr ⟨rfl, rfl⟩
      · rw [if_neg hd]
        cases hres : env.resolve_secp env.caller with
        | none => exact Or.inr ⟨rfl, rfl⟩
        | some sig =>
          simp only [hres]
          by_cases hd2 : params.destination = st.network_name
          · rw [if_pos hd2]
            exact Or.inr ⟨rfl, rfl⟩
          · rw [if_neg hd2]
            cases hto : params.msg.mto with
            | hier s a => exact Or.inr ⟨rfl, rfl⟩
            | raw rawTo =>
              simp only [hto]
              cases hsc : st.send_cross { params.msg with
                  mto := .hier params.destination rawTo,
                  mfrom := .hier st.network_name sig } env.curr_epoch with
              | error f => exact Or.inr ⟨rfl, rfl⟩
              | ok pr =>
                obtain ⟨st2, tp⟩ := pr
                exact Or.inl rfl
  | ApplyMessage msg =>
    simp only [stepM]
    unfold Actor.apply_msg
    by_cases hc : env.caller ≠ SYSTEM_ACTOR_ID
    · rw [if_pos hc]
      exact Or.inr (Or.inl rfl)
    · rw [if_neg hc]
      simp only []
      cases hto : msg.mto.subnet with
      | error e => exact Or.inr (Or.inl rfl)
      | ok sto =>
        simp only [hto]
        cases hat : msg.apply_type st.network_name with
        | error e => exact Or.inr (Or.inl rfl)
        | ok t =>
          cases t with
          | Unknown =>
            simp only [hat]
            exact Or.inr (Or.inl rfl)
          | BottomUp =>
            simp only [hat]
            cases hbt : applyBottomupTx st msg sto with
            | error c => exact Or.inr (Or.inl rfl)
            | ok st2 =>
              simp only [hbt]
              by_cases hnet : sto = st.network_name
              · rw [if_pos hnet]
                by_cases hr : (run_cross_msg env st2 msg).res = none
                · exact Or.inl hr
                · exact Or.inr (Or.inl ((run_cross_msg_shape env st2 msg).2.2.2.2 hr))
              · rw [if_neg hnet]
                exact Or.inl rfl
          | TopDown =>
            simp only [hat]
            cases htd : applyTopdownTx st msg sto with
            | error c => exact Or.inr (Or.inr rfl)
            | ok st2 =>
              simp only [htd]
              by_cases hnet : sto = st.network_name
              · rw [if_pos hnet]
                by_cases hr : (run_cross_msg env st2 msg).res = none
                · exact Or.inl hr
                · refine Or.inr (Or.inr ?_)
                  show { dest := REWARD_ACTOR_ID, method := EXTERNAL_FUNDING_METHOD,
                         value := 0 } :: (run_cross_msg env st2 msg).sends =
                    [{ dest := REWARD_ACTOR_ID, method := EXTERNAL_FUNDING_METHOD,
                       value := 0 }]
                  rw [(run_cross_msg_shape env st2 msg).2.2.2.2 hr]
              · rw [if_neg hnet]
                exact Or.inl rfl
  | InitAtomicExec params =>
    simp only [stepM]
    unfold Actor.init_atomic_exec
    by_cases hk : env.caller_kind ≠ CallerKind.signable
    · rw [if_pos hk]
      exact Or.inr ⟨rfl, rfl⟩
    · rw [if_neg hk]
      cases hin : params.input_into_ids env.resolve_id with
      | error e => exact Or.inr ⟨rfl, rfl⟩
      | ok params2 =>
        simp only [hin]
        cases htx : initAtomicTx st params.cid params2 with
        | error c => exact Or.inr ⟨rfl, rfl⟩
        | ok st2 => exact Or.inl rfl
  | AbortAtomicExec params =>
    simp only [stepM]
    unfold Actor.abort_atomic_exec
    by_cases hk : env.caller_kind ≠ CallerKind.signable
    · rw [if_pos hk]
      exact Or.inr ⟨rfl, rfl⟩
    · rw [if_neg hk]
      cases hreg : st.get_atomic_exec params.exec_cid with
      | none => exact Or.inr ⟨rfl, rfl⟩
      | some exec =>
        simp only [hreg]
        cases hchk : atomic_exec_checks exec env.caller with
        | error f => exact Or.inr ⟨rfl, rfl⟩
        | ok u =>
          simp only [hchk]
          cases hprop : st.propagate_exec_result { exec with status := ExecStatus.Aborted }
              .empty true with
          | error f => exact Or.inr ⟨rfl, rfl⟩
          | ok st2 => exact Or.inl rfl

/-- Environment of the C2 counterexample: a signable caller releasing 5
units on the rootnet, where the release transaction must fail because the
rootnet has no parent. -/
def c2Env : Env :=
  { caller := 9, caller_kind := .signable, value_received := 5, curr_epoch := 0,
    balance := 100, resolve_secp := fun _ => some 3, resolve_id := fun n => some n }

/-- Rootnet state for the C2 counterexample. -/
def c2State : State :=
  { network_name := ⟨[0]⟩, total_subnets := 0, min_stake := 10, subnets := [],
    check_period := 10, checkpoints := [], nonce := 0, applied_bottomup_nonce := 0,
    applied_topdown_nonce := 0, bottomup_msg_meta := [], atomic_exec_registry := [] }

/-- Counterexample to C2: this `Release` call fails (the rootnet has no
parent, so building the release message aborts with `USR_ILLEGAL_STATE`),
yet the burn send to the burnt-funds actor was already issued before the
transaction — a failing method with an outbound send, refuting the
claimed absence of side effects. -/
theorem claim_c2_counterexample :
    (stepM MethodCall.Release c2Env c2State).res = some ExitCode.USR_ILLEGAL_STATE ∧
    (stepM MethodCall.Release c2Env c2State).sends =
      [{ dest := BURNT_FUNDS_ACTOR_ID, method := METHOD_SEND, value := 5 }] := by
  decide

/-- Claim C2 (corrected): a failing method performs no state change and no
sends, except that `Release` issues its burn send before its transaction
(so a failing `Release` still leaves the state unchanged but may have
burnt the value), and `apply_msg` issues the reward mint send before its
top-down nonce transaction (so a failing `ApplyMessage` may have sent the
mint request and, when the failure happens after the transaction
committed, its state change persists inside the actor and is only undone
by the host revert). -/
theorem claim_c2_failed_call_effects (op : MethodCall) (env : Env) (st : State)
    (c : ExitCode) (h : (stepM op env st).res = some c) :
    match op with
    | MethodCall.Release =>
        (stepM op env st).st = st ∧
        ((stepM op env st).sends = [] ∨
         (stepM op env st).sends =
           [{ dest := BURNT_FUNDS_ACTOR_ID, method := METHOD_SEND,
              value := env.value_received }])
    | MethodCall.ApplyMessage _ =>
        (stepM op env st).sends = [] ∨
        (stepM op env st).sends =
          [{ dest := REWARD_ACTOR_ID, method := EXTERNAL_FUNDING_METHOD, value := 0 }]
    | _ => (stepM op env st).st = st ∧ (stepM op env st).sends = [] := by
  rcases stepM_failure_shape op env st with hok | hshape
  · rw [hok] at h
    cases h
  · cases op <;> exact hshape

/-- Witness for C2 at the failing concrete `Release` call. -/
theorem claim_c2_failed_call_effects_witness :
    (stepM MethodCall.Release c2Env c2State).res = some ExitCode.USR_ILLEGAL_STATE ∧
    ((stepM MethodCall.Release c2Env c2State).st = c2State ∧
     ((stepM MethodCall.Release c2Env c2State).sends = [] ∨
      (stepM MethodCall.Release c2Env c2State).sends =
        [{ dest := BURNT_FUNDS_ACTOR_ID, method := METHOD_SEND,
           value := c2Env.value_received }])) :=
  ⟨rfl,
   claim_c2_failed_call_effects MethodCall.Release c2Env c2State
     ExitCode.USR_ILLEGAL_STATE rfl⟩

/-! ## Claim C3: top-down nonce discipline -/

/-- Claim C3: for a cross-message whose effective direction at the current
network is top-down (reached through the system caller with a resolvable
destination subnet), a nonce different from `applied_topdown_nonce` makes
`apply_msg` fail with `USR_ILLEGAL_STATE` leaving the state (hence the
nonce) unchanged; a successful call increments `applied_topdown_nonce` by
exactly one; and over any sequence of method invocations
`applied_topdown_nonce` never decreases. -/
theorem claim_c3_topdown_nonce (env : Env) (st : State) (msg : StorableMsg)
    (sto : SubnetID)
    (hc : env.caller = SYSTEM_ACTOR_ID)
    (hsub : msg.mto.subnet = Except.ok sto)
    (hdir : msg.apply_type st.network_name = Except.ok HCMsgType.TopDown) :
    (st.applied_topdown_nonce ≠ msg.nonce →
      (Actor.apply_msg env st msg).res = some ExitCode.USR_ILLEGAL_STATE ∧
      (Actor.apply_msg env st msg).st = st) ∧
    ((Actor.apply_msg env st msg).res = none →
      (Actor.apply_msg env st msg).st.applied_topdown_nonce =
        st.applied_topdown_nonce + 1) ∧
    (∀ (calls : List (MethodCall × Env)) (st0 : State),
      st0.applied_topdown_nonce ≤ (runSeq st0 calls).applied_topdown_nonce) := by
  have hstep : Actor.apply_msg env st msg =
      match applyTopdownTx st msg sto with
      | .error c =>
          { res := some c, st := st, sends := [{ dest := REWARD_ACTOR_ID, method := EXTERNAL_FUNDING_METHOD, value := 0 }] }
      | .ok st2 =>
        if sto = st.network_name then
          { run_cross_msg env st2 msg with sends := { dest := REWARD_ACTOR_ID, method := EXTERNAL_FUNDING_METHOD, value := 0 } :: (run_cross_msg env st2 msg).sends }
        else
          .okRes st2 [{ dest := REWARD_ACTOR_ID, method := EXTERNAL_FUNDING_METHOD, value := 0 }] := by
    unfold Actor.apply_msg
    rw [hc]
    rw [if_neg (by simp)]
    simp only [hsub, hdir]
  refine ⟨?_, ?_, fun calls st0 => (runSeq_master calls st0).2.1⟩
  · intro hne
    have htx : applyTopdownTx st msg sto = .error ExitCode.USR_ILLEGAL_STATE := by
      unfold applyTopdownTx
      rw [if_pos hne]
    rw [hstep, htx]
    exact ⟨rfl, rfl⟩
  · intro hok
    rw [hstep] at hok ⊢
    cases htx : applyTopdownTx st msg sto with
    | error c =>
      rw [htx] at hok
      cases hok
    | ok st2 =>
      obtain ⟨hm, ha, hn, hle⟩ := applyTopdownTx_ok st msg sto st2 htx
      simp only []
      by_cases hnet : sto = st.network_name
      · rw [if_pos hnet]
        show (run_cross_msg env st2 msg).st.applied_topdown_nonce =
          st.applied_topdown_nonce + 1
        rw [(run_cross_msg_shape env st2 msg).2.1, ha]
      · rw [if_neg hnet]
        show st2.applied_topdown_nonce = st.applied_topdown_nonce + 1
        exact ha

/-- Environment of the C3 witness: the system actor delivers the message. -/
def c3Env : Env :=
  { caller := SYSTEM_ACTOR_ID, caller_kind := .signable, value_received := 0,
    curr_epoch := 0, balance := 0, resolve_secp := fun _ => none,
    resolve_id := fun n => some n }

/-- State of the C3 witness: a subnet network with applied nonce 0. -/
def c3State : State :=
  { network_name := ⟨[0, 1]⟩, total_subnets := 0, min_stake := 10, subnets := [],
    check_period := 10, checkpoints := [], nonce := 0, applied_bottomup_nonce := 0,
    applied_topdown_nonce := 0, bottomup_msg_meta := [], atomic_exec_registry := [] }

/-- Top-down message of the C3 witness, carrying the wrong nonce 5. -/
def c3Msg : StorableMsg :=
  { mfrom := .hier ⟨[0]⟩ 1, mto := .hier ⟨[0, 1]⟩ 3, method := 0,
    params := .empty, value := 0, nonce := 5 }

/-- Witness for C3 at the concrete top-down message. -/
theorem claim_c3_topdown_nonce_witness :
    c3Env.caller = SYSTEM_ACTOR_ID ∧
    c3Msg.mto.subnet = Except.ok (⟨[0, 1]⟩ : SubnetID) ∧
    c3Msg.apply_type c3State.network_name = Except.ok HCMsgType.TopDown ∧
    ((c3State.applied_topdown_nonce ≠ c3Msg.nonce →
        (Actor.apply_msg c3Env c3State c3Msg).res = some ExitCode.USR_ILLEGAL_STATE ∧
        (Actor.apply_msg c3Env c3State c3Msg).st = c3State) ∧
      ((Actor.apply_msg c3Env c3State c3Msg).res = none →
        (Actor.apply_msg c3Env c3State c3Msg).st.applied_topdown_nonce =
          c3State.applied_topdown_nonce + 1) ∧
      (∀ (calls : List (MethodCall × Env)) (st0 : State),
        st0.applied_topdown_nonce ≤ (runSeq st0 calls).applied_topdown_nonce)) :=
  ⟨rfl, by decide, by decide,
   claim_c3_topdown_nonce c3Env c3State c3Msg ⟨[0, 1]⟩ rfl (by decide) (by decide)⟩

end SCA
